import Mathlib

/-!
RCH::NanoTimer: split log, name/index resolver and interval queries

A shallow embedding of `src/include/rchnanotimer.h`.

Modelling conventions
* `RCH_NANOTIMER_DATATYPE` (a C++ `double`) is modelled by exact rational
  arithmetic (`ℚ`); rounding of floating point operations is not modelled.
* `RCH_NANOTIMER_TIMESTAMP` (a `time_point`) is modelled by its nanosecond
  count since the epoch, an `Int`.
* `now()` reads an external clock; every operation that calls `now()` takes
  the reading obtained by that call as an explicit argument.
* `int` values are modelled by `Int`: the log is assumed to hold fewer than
  `2^31` records, so no index computation of the source overflows.
* `std::string` is modelled by `String`; `::tolower` is the "C" locale
  function, which only changes the letters `A`..`Z`.
* `splits.front()`, `splits.back()` and `splits[i]` are undefined on a vector
  without such an element; they are modelled by `Option`-valued reads, and
  every member function that performs such a read returns an `Option`
  (`none` = the source reads an element that does not exist).
* member functions that change the timer return the new timer state next
  to their result (explicit state passing).
-/

namespace RCH

/-! ## Constants (`#define`s of the header) -/

/-- The header constant `RCH_NANOTIMER_DEFAULT_PRECISION`. -/
def RCH_NANOTIMER_DEFAULT_PRECISION : Nat := 6

/-- The header constant `RCH_NANOTIMER_DEFAULT_DISPLAYLABEL`. -/
def RCH_NANOTIMER_DEFAULT_DISPLAYLABEL : Bool := true

/-- The header constant `RCH_NANOTIMER_NANOSECONDS`. -/
def RCH_NANOTIMER_NANOSECONDS : ℚ := 1

/-- The header constant `RCH_NANOTIMER_MICROSECONDS`. -/
def RCH_NANOTIMER_MICROSECONDS : ℚ := 1000

/-- The header constant `RCH_NANOTIMER_MILLISECONDS`. -/
def RCH_NANOTIMER_MILLISECONDS : ℚ := 1000000

/-- The header constant `RCH_NANOTIMER_SECONDS`. -/
def RCH_NANOTIMER_SECONDS : ℚ := 1000000000

/-- The header constant `RCH_NANOTIMER_MINUTES`. -/
def RCH_NANOTIMER_MINUTES : ℚ := 60000000000

/-- The header constant `RCH_NANOTIMER_HOURS`. -/
def RCH_NANOTIMER_HOURS : ℚ := 3600000000000

/-- The header constant `RCH_NANOTIMER_LABELS_NANOSECONDS`. -/
def RCH_NANOTIMER_LABELS_NANOSECONDS : String := " ns"

/-- The header constant `RCH_NANOTIMER_LABELS_MICROSECONDS`. -/
def RCH_NANOTIMER_LABELS_MICROSECONDS : String := " µs"

/-- The header constant `RCH_NANOTIMER_LABELS_MILLISECONDS`. -/
def RCH_NANOTIMER_LABELS_MILLISECONDS : String := " ms"

/-- The header constant `RCH_NANOTIMER_LABELS_SECONDS`. -/
def RCH_NANOTIMER_LABELS_SECONDS : String := " s"

/-- The header constant `RCH_NANOTIMER_LABELS_MINUTES`. -/
def RCH_NANOTIMER_LABELS_MINUTES : String := " min"

/-- The header constant `RCH_NANOTIMER_LABELS_HOURS`. -/
def RCH_NANOTIMER_LABELS_HOURS : String := " h"

/-! ## Data model -/

/-- The record `NanoTimer::NanoSplit`: the name of a captured split time event
and its full precision timestamp (nanoseconds since the epoch). -/
structure NanoSplit where
  name : String
  time : Int
  deriving DecidableEq

/-- The table `NanoTimer::NanoFormatting` with its member initialisers. -/
structure NanoFormatting where
  precision : Nat := RCH_NANOTIMER_DEFAULT_PRECISION
  label : Bool := RCH_NANOTIMER_DEFAULT_DISPLAYLABEL
  deriving DecidableEq

/-- The member struct `NanoTimer::Timebase`: the currently set time base,
nanoseconds by default. -/
structure Timebase where
  timefactor : ℚ := RCH_NANOTIMER_NANOSECONDS
  deriving DecidableEq

namespace Timebase

/-- The getter `Timebase::factor`. -/
def factor (tb : Timebase) : ℚ := tb.timefactor

/-- The setter `Timebase::nanoseconds`. -/
def nanoseconds (_tb : Timebase) : Timebase := { timefactor := RCH_NANOTIMER_NANOSECONDS }

/-- The setter `Timebase::microseconds`. -/
def microseconds (_tb : Timebase) : Timebase := { timefactor := RCH_NANOTIMER_MICROSECONDS }

/-- The setter `Timebase::milliseconds`. -/
def milliseconds (_tb : Timebase) : Timebase := { timefactor := RCH_NANOTIMER_MILLISECONDS }

/-- The setter `Timebase::seconds`. -/
def seconds (_tb : Timebase) : Timebase := { timefactor := RCH_NANOTIMER_SECONDS }

/-- The setter `Timebase::minutes`. -/
def minutes (_tb : Timebase) : Timebase := { timefactor := RCH_NANOTIMER_MINUTES }

/-- The setter `Timebase::hours`. -/
def hours (_tb : Timebase) : Timebase := { timefactor := RCH_NANOTIMER_HOURS }

/-- The values the private member `timefactor` can hold: it starts at
`RCH_NANOTIMER_NANOSECONDS` and is only ever assigned by the six setters. -/
def Valid (tb : Timebase) : Prop :=
  tb.timefactor = RCH_NANOTIMER_NANOSECONDS ∨ tb.timefactor = RCH_NANOTIMER_MICROSECONDS ∨
  tb.timefactor = RCH_NANOTIMER_MILLISECONDS ∨ tb.timefactor = RCH_NANOTIMER_SECONDS ∨
  tb.timefactor = RCH_NANOTIMER_MINUTES ∨ tb.timefactor = RCH_NANOTIMER_HOURS

instance (tb : Timebase) : Decidable tb.Valid := by
  unfold Valid; infer_instance

end Timebase

/-- The class `RCH::NanoTimer`: its data members with their initialisers. -/
structure NanoTimer where
  timebase : Timebase := {}
  formatting : NanoFormatting := {}
  running : Bool := false
  splits : List NanoSplit := []
  deriving DecidableEq

/-- The call `std::transform(ID.begin(), ID.end(), ID.begin(), ::tolower)`:
every character of the string replaced by its lower case form. -/
def tolower (ID : String) : String := String.mk (ID.data.map Char.toLower)

namespace NanoTimer

/-! ## Private helpers of the class -/

/-- The member `numSplits`: the size of the log as an `int`. -/
def numSplits (T : NanoTimer) : Int := (T.splits.length : Int)

/-- The member `zero`: zero cast to the value type. -/
def zero : ℚ := 0

/-- The member `scale`: the nanosecond count of a timestamp, times `1e-9`,
divided by the timebase factor. -/
def scale (T : NanoTimer) (Time : Int) : ℚ :=
  ((1 / 1000000000 : ℚ) * (Time : ℚ)) / T.timebase.factor

/-- The read `splits.front()`. -/
def front (T : NanoTimer) : Option NanoSplit := T.splits.head?

/-- The read `splits.back()`. -/
def back (T : NanoTimer) : Option NanoSplit := T.splits.getLast?

/-- The read `splits[item]` for an `int` position. -/
def nth (T : NanoTimer) (item : Int) : Option NanoSplit :=
  if 0 ≤ item then T.splits[item.toNat]? else none

/-- The scanning loop of `indexFromSplitID`, run over the records from position
`item` on: `foundIndex` becomes `item` at every record whose name is `SplitID`. -/
def indexFromSplitID.loop (SplitID : String) : List NanoSplit → Int → Int → Int
  | [], _, foundIndex => foundIndex
  | s :: rest, item, foundIndex =>
      indexFromSplitID.loop SplitID rest (item + 1) (if s.name = SplitID then item else foundIndex)

/-- The member `indexFromSplitID`: `-1` if no split with this ID is found, else
the index the source computes. -/
def indexFromSplitID (T : NanoTimer) (SplitID : String) : Option Int :=
  if T.numSplits = 0 then
    some (-1)
  else do
    let SplitID := tolower SplitID
    let first ← T.front
    let last ← T.back
    let foundIndex : Int :=
      if SplitID = "start" ∨ SplitID = "begin" ∨ SplitID = first.name then 0
      else if SplitID = "stop" ∨ SplitID = "end" ∨ SplitID = last.name then T.numSplits - 1
      else -1
    pure (indexFromSplitID.loop SplitID T.splits 0 foundIndex)

/-! ## Reset and operation -/

/-- The member `reset`. -/
def reset (T : NanoTimer) : NanoTimer :=
  { T with running := false, splits := [] }

/-- The member `split`; `now` is the clock reading taken by the call. -/
def split (T : NanoTimer) (ID : String) (now : Int) : Option (ℚ × NanoTimer) :=
  if T.running = true then do
    let ID := tolower ID
    let T1 : NanoTimer :=
      { T with splits := T.splits ++
          [NanoSplit.mk (if ID = "" then toString (T.numSplits + 1) else ID) now] }
    let last ← T1.back
    pure (T1.scale last.time, T1)
  else
    some (zero, T)

/-- The member `start`; `now` is the clock reading taken by the call. -/
def start (T : NanoTimer) (ID : String) (now : Int) : Option (ℚ × NanoTimer) := do
  let T1 := T.reset
  let T2 : NanoTimer := { T1 with running := true }
  let (_, T3) ← T2.split (if ID = "" then "start" else ID) now
  let first ← T3.front
  pure (T3.scale first.time, T3)

/-- The member `stop`; `now` is the clock reading taken by the call. -/
def stop (T : NanoTimer) (ID : String) (now : Int) : Option (ℚ × NanoTimer) :=
  if T.running = true then do
    let (_, T1) ← T.split (if ID = "" then "stop" else ID) now
    let T2 : NanoTimer := { T1 with running := false }
    let last ← T2.back
    pure (T2.scale last.time, T2)
  else
    some (zero, T)

/-! ## Specific points in time -/

/-- The member `time(const int&)`. -/
def time (T : NanoTimer) (Number : Int) : Option ℚ :=
  if T.numSplits = 0 then
    some zero
  else if Number = 0 then do
    let first ← T.front
    pure (T.scale first.time)
  else if Number = -1 then do
    let last ← T.back
    pure (T.scale last.time)
  else
    let splitIndex : Int := Number + (if Number < 0 then 1 else 0) * T.numSplits
    if splitIndex > -1 ∧ splitIndex < T.numSplits then do
      let s ← T.nth splitIndex
      pure (T.scale s.time)
    else
      some zero

/-- The member `time(std::string)`. -/
def timeID (T : NanoTimer) (SplitID : String) : Option ℚ :=
  if T.numSplits = 0 then
    some zero
  else do
    let index ← T.indexFromSplitID SplitID
    if index > -1 then
      T.time index
    else
      some zero

/-! ## Time interval, start to stop -/

/-- The member `interval()`; `now` is the clock reading taken by the call. -/
def interval (T : NanoTimer) (now : Int) : Option ℚ := do
  let sNow := T.scale now
  let first ← T.front
  let sStart := T.scale first.time
  let last ← T.back
  let sStop := T.scale last.time
  pure ((if T.running = true then 1 else 0) * (sNow - sStart)
        + (if T.running = false then 1 else 0) * (sStop - sStart))


/-! ## Time interval, start to split -/

/-- The member `interval(const int&)`; `now` is the clock reading taken when
the call reaches `interval()`. -/
def intervalIndex (T : NanoTimer) (EndSplitIndex : Int) (now : Int) : Option ℚ :=
  if T.numSplits = 0 ∨ EndSplitIndex = 0 then
    some zero
  else if EndSplitIndex = -1 then
    T.interval now
  else do
    let splitTime ← T.time EndSplitIndex
    if splitTime > 0 then do
      let first ← T.front
      pure (splitTime - T.scale first.time)
    else
      some zero

/-! ## Time interval, split to split -/

/-- The member `interval(const int&, const int&)`; `now` is the clock reading
taken when the call reaches `interval()`. -/
def intervalIndices (T : NanoTimer) (Split OtherSplit : Int) (now : Int) : Option ℚ :=
  if T.numSplits = 0 then
    some zero
  else if (Split = 0 ∨ Split = -1 ∨ Split ≥ T.numSplits) ∧
      (OtherSplit = 0 ∨ OtherSplit = -1 ∨ OtherSplit ≥ T.numSplits) then
    T.interval now
  else
    let split1 : Int :=
      (if Split > -1 then 1 else 0) * Split + (if Split < 0 then 1 else 0) * (T.numSplits + Split)
    let split2 : Int :=
      (if OtherSplit > -1 then 1 else 0) * OtherSplit
        + (if OtherSplit < 0 then 1 else 0) * (T.numSplits + OtherSplit)
    if split1 > -1 ∧ split1 < T.numSplits ∧ split2 > -1 ∧ split2 < T.numSplits then do
      let splitTimeLater ← T.time (max split1 split2)
      let splitTimeEarlier ← T.time (min split1 split2)
      pure (splitTimeLater - splitTimeEarlier)
    else
      some zero

/-- The scanning loop of `interval(std::string)`, run over the records from
position `item` on: `index1` and `index2` follow the records named
`"start " + SplitID` and `"stop " + SplitID`, and the loop returns
`interval(index1, index2)` as soon as both are set. -/
def intervalID.loop (T : NanoTimer) (SplitID : String) (now : Int) :
    List NanoSplit → Int → Int → Int → Option ℚ
  | [], _, _, _ => some zero
  | s :: rest, item, index1, index2 =>
      let index1' : Int := if s.name = "start " ++ SplitID then item else index1
      let index2' : Int :=
        if s.name = "start " ++ SplitID then index2
        else if s.name = "stop " ++ SplitID then item else index2
      if index1' > -1 ∧ index2' > -1 then
        T.intervalIndices index1' index2' now
      else
        intervalID.loop T SplitID now rest (item + 1) index1' index2'

/-- The member `interval(std::string)`; `now` is the clock reading taken when
the call reaches `interval()`. -/
def intervalID (T : NanoTimer) (SplitID : String) (now : Int) : Option ℚ :=
  if T.numSplits = 0 then
    some zero
  else do
    let index ← T.indexFromSplitID SplitID
    if index > -1 then
      T.intervalIndex index now
    else
      intervalID.loop T SplitID now T.splits 0 (-1) (-1)

/-- The member `interval(std::string, std::string)`. -/
def intervalIDs (T : NanoTimer) (SplitID OtherSplitID : String) : Option ℚ :=
  if T.numSplits = 0 then
    some zero
  else do
    let SplitID := tolower SplitID
    let OtherSplitID := tolower OtherSplitID
    let split1 ← T.indexFromSplitID SplitID
    let split2 ← T.indexFromSplitID OtherSplitID
    if split1 > -1 ∧ split1 < T.numSplits ∧ split2 > -1 ∧ split2 < T.numSplits then do
      let splitTimeLater ← T.time (max split1 split2)
      let splitTimeEarlier ← T.time (min split1 split2)
      pure (splitTimeLater - splitTimeEarlier)
    else
      some zero

/-! ## Benchmarking, named and sequential -/

/-- The member `benchmark(void(*)(), std::string)` for a callable that does
not touch the timer: `now1` and `now2` are the clock readings taken by the
split before and the split after the call of `Function`. -/
def benchmarkID (T : NanoTimer) (SplitStageID : String) (now1 now2 : Int) :
    Option (ℚ × NanoTimer) := do
  let (_, T1) ←
    if T.running = false then T.start ("start " ++ SplitStageID) now1
    else T.split ("start " ++ SplitStageID) now1
  let (_, T2) ← T1.split ("stop " ++ SplitStageID) now2
  let result ← T2.intervalIDs ("start " ++ SplitStageID) ("stop " ++ SplitStageID)
  pure (result, T2)

/-! ## Callers -/

/-- A caller that runs staged benchmarks one after the other on the same
timer, as the demo program does: every entry gives a stage id and the two
clock readings its benchmark takes. -/
def benchmarkIDs (T : NanoTimer) : List (String × Int × Int) → Option NanoTimer
  | [] => some T
  | stage :: more => do
      let (_, T1) ← T.benchmarkID stage.1 stage.2.1 stage.2.2
      benchmarkIDs T1 more

/-- The two records a staged benchmark with the given id and clock readings
appends to the log. -/
def stageMarkers (stage : String × Int × Int) : List NanoSplit :=
  [NanoSplit.mk (tolower ("start " ++ stage.1)) stage.2.1,
   NanoSplit.mk (tolower ("stop " ++ stage.1)) stage.2.2]

/-- The records a run of staged benchmarks appends to the log. -/
def stagesLog : List (String × Int × Int) → List NanoSplit
  | [] => []
  | stage :: more => stageMarkers stage ++ stagesLog more


/-! ## Format -/

/-- The library call `std::round`: the nearest integer, halfway cases away
from zero. -/
def std_round (x : ℚ) : ℚ :=
  if x < 0 then -((⌊-x + 1 / 2⌋ : Int) : ℚ) else ((⌊x + 1 / 2⌋ : Int) : ℚ)

/-- The value `static_cast<int>(value.find("."))`: the position of the first
"." of the string, and `-1` (the cast of `npos`) when it has none. -/
def findDot (value : String) : Int :=
  if '.' ∈ value.data then (value.data.indexOf '.' : Int) else -1

/-- The call `value.erase(pos, std::string::npos)`: the string cut off at
position `pos`. -/
def eraseFrom (value : String) (pos : Nat) : String := String.mk (value.data.take pos)

/-- The member `format(const RCH_NANOTIMER_DATATYPE&)`, a `const` member: it
returns the formatted string and has no access to change the timer. The
library function `std::to_string` for the value type is the parameter
`to_string`; `unsigned int` arithmetic is taken modulo `2^32`. -/
def format (to_string : ℚ → String) (T : NanoTimer) (Time : ℚ) : String :=
  let roundFactor : ℚ := (10 : ℚ) ^ T.formatting.precision
  let value : String := to_string (std_round (Time * roundFactor) / roundFactor)
  let valueLength : Int := ((value.length % 2 ^ 32 : Nat) : Int)
  let dot : Int := findDot value
  let value : String :=
    if dot > -1 then
      let precision : Int :=
        (((T.formatting.precision + (if T.formatting.precision > 0 then 1 else 0)) % 2 ^ 32 : Nat)
          : Int)
      let precision : Int :=
        if precision > (valueLength - dot) % 2 ^ 32 then (valueLength - dot) % 2 ^ 32
        else precision
      eraseFrom value ((dot + precision) % 2 ^ 32).toNat
    else value
  if T.formatting.label = true then
    if T.timebase.factor = RCH_NANOTIMER_NANOSECONDS then
      value ++ RCH_NANOTIMER_LABELS_NANOSECONDS
    else if T.timebase.factor = RCH_NANOTIMER_MICROSECONDS then
      value ++ RCH_NANOTIMER_LABELS_MICROSECONDS
    else if T.timebase.factor = RCH_NANOTIMER_MILLISECONDS then
      value ++ RCH_NANOTIMER_LABELS_MILLISECONDS
    else if T.timebase.factor = RCH_NANOTIMER_SECONDS then
      value ++ RCH_NANOTIMER_LABELS_SECONDS
    else if T.timebase.factor = RCH_NANOTIMER_MINUTES then
      value ++ RCH_NANOTIMER_LABELS_MINUTES
    else if T.timebase.factor = RCH_NANOTIMER_HOURS then
      value ++ RCH_NANOTIMER_LABELS_HOURS
    else value
  else value

/-! ## Benchmarking, anonymous and discrete -/

/-- The member `benchmark(void(*)())` for a callable that does not touch the
timer: `now1`, `now2` and `now3` are the clock readings taken by `start()`,
by `stop()` and by `interval()`. -/
def benchmark (T : NanoTimer) (now1 now2 now3 : Int) : Option (ℚ × NanoTimer) := do
  let (_, T1) ← T.start "" now1
  let (_, T2) ← T1.stop "" now2
  let result ← T2.interval now3
  pure (result, T2)

/-- The member `benchmark<RETURNTYPE>(RETURNTYPE(*)())` for a callable that
does not touch the timer and returns `result`: `now1` and `now2` are the clock
readings taken by `start()` and by `stop()`. -/
def benchmarkValue {RETURNTYPE : Type} (T : NanoTimer) (result : RETURNTYPE)
    (now1 now2 : Int) : Option (RETURNTYPE × NanoTimer) := do
  let (_, T1) ← T.start "" now1
  let (_, T2) ← T1.stop "" now2
  pure (result, T2)

/-- The member `benchmark<RETURNTYPE>(RETURNTYPE(*)(), std::string)` for a
callable that does not touch the timer and returns `result`: `now1` and `now2`
are the clock readings taken by the split before and the split after the call
of `Function`. -/
def benchmarkIDValue {RETURNTYPE : Type} (T : NanoTimer) (result : RETURNTYPE)
    (SplitStageID : String) (now1 now2 : Int) : Option (RETURNTYPE × NanoTimer) := do
  let (_, T1) ←
    if T.running = false then T.start ("start " ++ SplitStageID) now1
    else T.split ("start " ++ SplitStageID) now1
  let (_, T2) ← T1.split ("stop " ++ SplitStageID) now2
  pure (result, T2)

/-! ## Export of the stored split timeline -/

/-- The call `std::vector::resize(n)`: the first `n` elements, filled up with
value-initialised elements when the vector was shorter. -/
def resize {α : Type} [Inhabited α] (v : List α) (n : Nat) : List α :=
  v.take n ++ List.replicate (n - v.length) default

/-- The loop of `list`, run over the records: every record appends its name to
`IDs` and its scaled timestamp to `Timestamps`. -/
def list.loop (T : NanoTimer) : List NanoSplit → List String → List ℚ → List String × List ℚ
  | [], IDs, Timestamps => (IDs, Timestamps)
  | s :: rest, IDs, Timestamps =>
      list.loop T rest (IDs ++ [s.name]) (Timestamps ++ [T.scale s.time])

/-- The member `list(std::vector<std::string>& IDs,
std::vector<RCH_NANOTIMER_DATATYPE> Timestamps)`: `IDs` is a reference to the
caller's vector, `Timestamps` is a copy of the caller's vector. The result is
the pair of the caller's two vectors after the call. -/
def list (T : NanoTimer) (IDs : List String) (Timestamps : List ℚ) : List String × List ℚ :=
  let IDs1 := resize IDs T.numSplits.toNat
  let Timestamps1 := resize Timestamps T.numSplits.toNat
  let filled := list.loop T T.splits IDs1 Timestamps1
  (filled.1, Timestamps)

/-- The loop of `listTimes`, run over the records. -/
def listTimes.loop (T : NanoTimer) : List NanoSplit → List ℚ → List ℚ
  | [], data => data
  | s :: rest, data => listTimes.loop T rest (data ++ [T.scale s.time])

/-- The member `listTimes`, a `const` member. -/
def listTimes (T : NanoTimer) : List ℚ := listTimes.loop T T.splits []

/-- The loop of `listIds`, run over the records. -/
def listIds.loop : List NanoSplit → List String → List String
  | [], data => data
  | s :: rest, data => listIds.loop rest (data ++ [s.name])

/-- The member `listIds`, a `const` member. -/
def listIds (T : NanoTimer) : List String := listIds.loop T.splits []

/-! ## Construction and sequences of calls -/

/-- The constructor `NanoTimer(const unsigned int&, const bool&)`. -/
def create (Precision : Nat) (DisplayLabel : Bool) : NanoTimer :=
  { formatting := { precision := Precision, label := DisplayLabel } }

/-- A call of one of the members that write to the log, with its name
argument and the clock readings it takes; the callables of the benchmarks do
not touch the timer. -/
inductive Call where
  | reset
  | split (ID : String) (now : Int)
  | start (ID : String) (now : Int)
  | stop (ID : String) (now : Int)
  | benchmark (now1 now2 now3 : Int)
  | benchmarkValue (now1 now2 : Int)
  | benchmarkID (SplitStageID : String) (now1 now2 : Int)
  | benchmarkIDValue (SplitStageID : String) (now1 now2 : Int)

/-- The timer state a call leaves. -/
def Call.run (T : NanoTimer) : Call → Option NanoTimer
  | Call.reset => some T.reset
  | Call.split ID now => (T.split ID now).map Prod.snd
  | Call.start ID now => (T.start ID now).map Prod.snd
  | Call.stop ID now => (T.stop ID now).map Prod.snd
  | Call.benchmark now1 now2 now3 => (T.benchmark now1 now2 now3).map Prod.snd
  | Call.benchmarkValue now1 now2 => (T.benchmarkValue () now1 now2).map Prod.snd
  | Call.benchmarkID SplitStageID now1 now2 => (T.benchmarkID SplitStageID now1 now2).map Prod.snd
  | Call.benchmarkIDValue SplitStageID now1 now2 =>
      (T.benchmarkIDValue () SplitStageID now1 now2).map Prod.snd

/-- The timer state a sequence of calls leaves. -/
def runCalls (T : NanoTimer) : List Call → Option NanoTimer
  | [] => some T
  | c :: more => (Call.run T c).bind (fun T1 => runCalls T1 more)

/-- The names of all records of the log are in lower case form: lower-casing
them changes nothing. -/
def Normalised (T : NanoTimer) : Prop := ∀ s ∈ T.splits, tolower s.name = s.name

/-- The shape of the log that goes with the running flag: a running timer has
at least one record, and a timer that is not running has no record or at least
two. -/
def LogShape (T : NanoTimer) : Prop :=
  (T.running = true → 1 ≤ T.splits.length) ∧
  (T.running = false → T.splits = [] ∨ 2 ≤ T.splits.length)

/-- The greatest position of a record named `m` in a log, if the log has such a
record. -/
def lastIndexNamed (m : String) : List NanoSplit → Option Nat
  | [] => none
  | s :: rest =>
      match lastIndexNamed m rest with
      | some i => some (i + 1)
      | none => if s.name = m then some 0 else none

/-- The reference definition of the name resolver, following its description:
`-1` for an empty log; otherwise, with `m` the lower case form of the name, the
greatest position of a record named `m` if there is one; otherwise 0 if `m` is
"start" or "begin"; otherwise `count - 1` if `m` is "stop" or "end"; otherwise
`-1`. -/
def indexFromSplitID_reference (T : NanoTimer) (name : String) : Int :=
  if T.splits.length = 0 then -1
  else
    match lastIndexNamed (tolower name) T.splits with
    | some i => (i : Int)
    | none =>
        if tolower name = "start" ∨ tolower name = "begin" then 0
        else if tolower name = "stop" ∨ tolower name = "end" then (T.splits.length : Int) - 1
        else -1


/-! ## Auxiliary facts -/

theorem tolower_data (ID : String) : (tolower ID).data = ID.data.map Char.toLower := rfl

theorem tolower_eq_empty (ID : String) : tolower ID = "" ↔ ID = "" := by
  constructor
  · intro h
    have h1 : (tolower ID).data = [] := by rw [h]
    rw [tolower_data, List.map_eq_nil_iff] at h1
    exact String.ext h1
  · intro h
    subst h
    rfl

theorem back_snoc (T : NanoTimer) (l : List NanoSplit) (s : NanoSplit) :
    back { T with splits := l ++ [s] } = some s := by
  simp [back]

theorem numSplits_snoc_ne_zero (T : NanoTimer) (l : List NanoSplit) (s : NanoSplit) :
    numSplits { T with splits := l ++ [s] } ≠ 0 := by
  simp [numSplits]
  omega

/-- What `split` does on a running timer, for any name. -/
theorem split_running (T : NanoTimer) (ID : String) (now : Int) (hrun : T.running = true) :
    T.split ID now =
      some (scale T now,
        { T with splits := T.splits ++
            [NanoSplit.mk (if tolower ID = "" then toString (T.numSplits + 1) else tolower ID) now] }) := by
  simp [split, hrun, back, scale]

/-- What `split` does on a timer that is not running. -/
theorem split_idle (T : NanoTimer) (ID : String) (now : Int) (hrun : T.running = false) :
    T.split ID now = some (0, T) := by
  simp [split, hrun, zero]

/-- The value of `time(-1)` on a log that ends in the record `s`. -/
theorem time_neg_one_snoc (T : NanoTimer) (l : List NanoSplit) (s : NanoSplit) :
    time { T with splits := l ++ [s] } (-1) = some (scale T s.time) := by
  have h := numSplits_snoc_ne_zero T l s
  simp [time, h, back, scale]

/-- Every value the timebase factor can hold is positive. -/
theorem factor_pos_of_valid {tb : Timebase} (h : tb.Valid) : 0 < tb.factor := by
  unfold Timebase.factor
  rcases h with h | h | h | h | h | h <;> rw [h] <;>
    simp [RCH_NANOTIMER_NANOSECONDS, RCH_NANOTIMER_MICROSECONDS, RCH_NANOTIMER_MILLISECONDS,
      RCH_NANOTIMER_SECONDS, RCH_NANOTIMER_MINUTES, RCH_NANOTIMER_HOURS]

/-- Under a positive timebase factor `scale` keeps the order of timestamps. -/
theorem scale_mono (T : NanoTimer) (a b : Int) (hf : 0 < T.timebase.factor) (h : a ≤ b) :
    T.scale a ≤ T.scale b := by
  unfold scale
  refine (div_le_div_iff_of_pos_right hf).2 ?_
  exact mul_le_mul_of_nonneg_left (Int.cast_le.2 h) (by norm_num)

/-- A position below the length of a list holds an element. -/
theorem getElem?_of_lt {α : Type} (l : List α) (k : Nat) (h : k < l.length) :
    ∃ s, l[k]? = some s :=
  ⟨l[k], List.getElem?_eq_getElem h⟩

/-- What the scanning loop of `indexFromSplitID` returns: the incoming
`foundIndex` when no record of the list carries the name, and otherwise the
position of the last record that does. -/
theorem indexFromSplitID.loop_spec (m : String) :
    ∀ (l : List NanoSplit) (item found : Int),
      (indexFromSplitID.loop m l item found = found ∧ ∀ s ∈ l, s.name ≠ m) ∨
      (∃ k : Nat, indexFromSplitID.loop m l item found = item + k ∧
        (∃ s, l[k]? = some s ∧ s.name = m) ∧
        ∀ (j : Nat) (s : NanoSplit), k < j → l[j]? = some s → s.name ≠ m) := by
  intro l
  induction l with
  | nil =>
    intro item found
    left
    exact ⟨rfl, by simp⟩
  | cons s rest ih =>
    intro item found
    by_cases hs : s.name = m
    · right
      rcases ih (item + 1) item with ⟨hr, hno⟩ | ⟨k, hr, hk, hafter⟩
      · refine ⟨0, ?_, ⟨s, by simp, hs⟩, ?_⟩
        · simp only [indexFromSplitID.loop, if_pos hs, hr]
          simp
        · intro j s' hj hget
          obtain ⟨j', rfl⟩ : ∃ j', j = j' + 1 := ⟨j - 1, by omega⟩
          rw [List.getElem?_cons_succ] at hget
          exact hno s' (List.getElem?_mem hget)
      · refine ⟨k + 1, ?_, ?_, ?_⟩
        · simp only [indexFromSplitID.loop, if_pos hs, hr]
          push_cast
          ring
        · simpa using hk
        · intro j s' hj hget
          obtain ⟨j', rfl⟩ : ∃ j', j = j' + 1 := ⟨j - 1, by omega⟩
          rw [List.getElem?_cons_succ] at hget
          exact hafter j' s' (by omega) hget
    · rcases ih (item + 1) found with ⟨hr, hno⟩ | ⟨k, hr, hk, hafter⟩
      · left
        refine ⟨?_, ?_⟩
        · simp only [indexFromSplitID.loop, if_neg hs, hr]
        · intro s' hmem
          rcases List.mem_cons.1 hmem with h | h
          · subst h; exact hs
          · exact hno s' h
      · right
        refine ⟨k + 1, ?_, ?_, ?_⟩
        · simp only [indexFromSplitID.loop, if_neg hs, hr]
          push_cast
          ring
        · simpa using hk
        · intro j s' hj hget
          obtain ⟨j', rfl⟩ : ∃ j', j = j' + 1 := ⟨j - 1, by omega⟩
          rw [List.getElem?_cons_succ] at hget
          exact hafter j' s' (by omega) hget

/-- On a non-empty log `splits.front()` reads the record at position 0. -/
theorem front_of_ne (T : NanoTimer) (hne : T.numSplits ≠ 0) :
    ∃ f, T.front = some f ∧ T.splits[0]? = some f := by
  have hlen : 0 < T.splits.length := by
    unfold numSplits at hne; omega
  obtain ⟨f, hf⟩ := getElem?_of_lt T.splits 0 hlen
  exact ⟨f, by rw [front, List.head?_eq_getElem?, hf], hf⟩

/-- On a non-empty log `splits.back()` reads the record at the last position. -/
theorem back_of_ne (T : NanoTimer) (hne : T.numSplits ≠ 0) :
    ∃ b, T.back = some b ∧ T.splits[T.splits.length - 1]? = some b := by
  have hlen : 0 < T.splits.length := by
    unfold numSplits at hne; omega
  obtain ⟨b, hb⟩ := getElem?_of_lt T.splits (T.splits.length - 1) (by omega)
  exact ⟨b, by rw [back, List.getLast?_eq_getElem?, hb], hb⟩

/-- For a position `k` that holds the record `s`, the call `time(k)` returns the scaled
timestamp of `s`. -/
theorem time_natIndex (T : NanoTimer) (k : Nat) (s : NanoSplit) (h : T.splits[k]? = some s) :
    T.time (k : Int) = some (T.scale s.time) := by
  have hlt : k < T.splits.length := by
    rcases Nat.lt_or_ge k T.splits.length with hlt | hge
    · exact hlt
    · rw [List.getElem?_eq_none hge] at h; cases h
  have hne : T.numSplits ≠ 0 := by
    unfold numSplits; omega
  by_cases hk : k = 0
  · subst hk
    have hf : T.front = some s := by rw [front, List.head?_eq_getElem?, h]
    simp [time, hne, hf]
  · have h0 : (k : Int) ≠ 0 := by omega
    have h1 : (k : Int) ≠ -1 := by omega
    have hneg : ¬ (k : Int) < 0 := by omega
    have hb : (k : Int) + 0 * T.numSplits > -1 ∧ (k : Int) + 0 * T.numSplits < T.numSplits := by
      unfold numSplits; constructor <;> omega
    have hnth : T.nth ((k : Int) + 0 * T.numSplits) = some s := by
      have hz : (k : Int) + 0 * T.numSplits = (k : Int) := by omega
      rw [hz, nth, if_pos (by omega)]
      simpa using h
    simp only [time, if_neg hne, if_neg h0, if_neg h1, if_neg hneg, if_pos hb, hnth]
    rfl

/-- The call `time(i)` returns a value for every state and index. -/
theorem time_total (T : NanoTimer) (i : Int) : ∃ v, T.time i = some v := by
  by_cases hne : T.numSplits = 0
  · exact ⟨zero, by simp [time, hne]⟩
  · obtain ⟨f, hf, _⟩ := front_of_ne T hne
    obtain ⟨b, hb, _⟩ := back_of_ne T hne
    by_cases h0 : i = 0
    · exact ⟨T.scale f.time, by simp [time, hne, h0, hf]⟩
    · by_cases h1 : i = -1
      · exact ⟨T.scale b.time, by simp [time, hne, h1, hb]⟩
      · by_cases hbd : i + (if i < 0 then 1 else 0) * T.numSplits > -1 ∧
            i + (if i < 0 then 1 else 0) * T.numSplits < T.numSplits
        · obtain ⟨j, hj⟩ : ∃ j, j = i + (if i < 0 then 1 else 0) * T.numSplits := ⟨_, rfl⟩
          rw [← hj] at hbd
          have hlt : j.toNat < T.splits.length := by
            unfold numSplits at hbd; omega
          obtain ⟨s, hs⟩ := getElem?_of_lt T.splits _ hlt
          refine ⟨T.scale s.time, ?_⟩
          have hnth : T.nth j = some s := by
            rw [nth, if_pos (by omega), hs]
          simp only [time, if_neg hne, if_neg h0, if_neg h1, ← hj, if_pos hbd, hnth]
          rfl
        · exact ⟨zero, by simp only [time, if_neg hne, if_neg h0, if_neg h1, if_neg hbd]⟩

/-- What `interval()` returns on a log with first record `f` and last record `b`. -/
theorem interval_of_front_back (T : NanoTimer) (now : Int) (f b : NanoSplit)
    (hf : T.front = some f) (hb : T.back = some b) :
    T.interval now = some (if T.running = true then T.scale now - T.scale f.time
      else T.scale b.time - T.scale f.time) := by
  cases hr : T.running <;> simp [interval, hf, hb, hr]

/-- On a non-empty log `interval()` returns a value. -/
theorem interval_total (T : NanoTimer) (now : Int) (hne : T.numSplits ≠ 0) :
    ∃ v, T.interval now = some v := by
  obtain ⟨f, hf, _⟩ := front_of_ne T hne
  obtain ⟨b, hb, _⟩ := back_of_ne T hne
  exact ⟨_, interval_of_front_back T now f b hf hb⟩

/-- The positive position `interval(int, int)` computes from an index. -/
theorem normalise_index (c a : Int) :
    (if a > -1 then 1 else 0) * a + (if a < 0 then 1 else 0) * (c + a)
      = if a < 0 then a + c else a := by
  split_ifs <;> omega

/-- The call `interval(a, b)` when both indices pass the filter of the special
case: it is `interval()`. -/
theorem intervalIndices_filter (T : NanoTimer) (a b now : Int) (hne : T.numSplits ≠ 0)
    (hflt : (a = 0 ∨ a = -1 ∨ a ≥ T.numSplits) ∧ (b = 0 ∨ b = -1 ∨ b ≥ T.numSplits)) :
    T.intervalIndices a b now = T.interval now := by
  simp only [intervalIndices, if_neg hne, if_pos hflt]

/-- The call `interval(a, b)` when the indices do not pass the filter of the
special case and their positive positions `p` and `q` hold records: it is the
difference of the scaled timestamps at the greater and at the smaller position. -/
theorem intervalIndices_inner (T : NanoTimer) (a b now : Int) (p q : Nat) (sp sq : NanoSplit)
    (hflt : ¬ ((a = 0 ∨ a = -1 ∨ a ≥ T.numSplits) ∧ (b = 0 ∨ b = -1 ∨ b ≥ T.numSplits)))
    (hp : (if a < 0 then a + T.numSplits else a) = (p : Int))
    (hq : (if b < 0 then b + T.numSplits else b) = (q : Int))
    (hsp : T.splits[max p q]? = some sp) (hsq : T.splits[min p q]? = some sq) :
    T.intervalIndices a b now = some (T.scale sp.time - T.scale sq.time) := by
  have hmaxlt : max p q < T.splits.length := by
    rcases Nat.lt_or_ge (max p q) T.splits.length with h | h
    · exact h
    · rw [List.getElem?_eq_none h] at hsp; cases hsp
  have hne : T.numSplits ≠ 0 := by
    unfold numSplits; omega
  have hbd : (p : Int) > -1 ∧ (p : Int) < T.numSplits ∧ (q : Int) > -1 ∧ (q : Int) < T.numSplits := by
    unfold numSplits
    refine ⟨by omega, ?_, by omega, ?_⟩
    · have := le_max_left p q; omega
    · have := le_max_right p q; omega
  have hmax : max (p : Int) (q : Int) = ((max p q : Nat) : Int) := (Nat.cast_max p q).symm
  have hmin : min (p : Int) (q : Int) = ((min p q : Nat) : Int) := (Nat.cast_min p q).symm
  simp only [intervalIndices, if_neg hne, if_neg hflt, normalise_index, hp, hq, if_pos hbd,
    hmax, hmin, time_natIndex T _ sp hsp, time_natIndex T _ sq hsq]
  rfl

/-- The call `interval(a, b)` when the indices do not pass the filter of the
special case and one of their positive positions is out of bounds: zero. -/
theorem intervalIndices_outside (T : NanoTimer) (a b now : Int)
    (hflt : ¬ ((a = 0 ∨ a = -1 ∨ a ≥ T.numSplits) ∧ (b = 0 ∨ b = -1 ∨ b ≥ T.numSplits)))
    (hout : ¬ ((if a < 0 then a + T.numSplits else a) > -1 ∧
        (if a < 0 then a + T.numSplits else a) < T.numSplits ∧
        (if b < 0 then b + T.numSplits else b) > -1 ∧
        (if b < 0 then b + T.numSplits else b) < T.numSplits)) :
    T.intervalIndices a b now = some 0 := by
  by_cases hne : T.numSplits = 0
  · simp [intervalIndices, hne, zero]
  · simp only [intervalIndices, if_neg hne, if_neg hflt, normalise_index, if_neg hout]
    rfl

/-- In a log whose timestamps do not decrease from one record to the next, a
record at an earlier position has a timestamp not above that of a record at a
later position. -/
theorem time_le_of_chain (l : List NanoSplit) (h : l.Chain' (fun x y => x.time ≤ y.time))
    (i j : Nat) (hij : i ≤ j) (si sj : NanoSplit) (hi : l[i]? = some si) (hj : l[j]? = some sj) :
    si.time ≤ sj.time := by
  haveI : IsTrans NanoSplit (fun x y => x.time ≤ y.time) := ⟨fun _ _ _ h1 h2 => le_trans h1 h2⟩
  have hp : l.Pairwise (fun x y => x.time ≤ y.time) := List.chain'_iff_pairwise.1 h
  rcases Nat.eq_or_lt_of_le hij with heq | hlt
  · subst heq
    rw [hi] at hj
    cases hj
    exact le_refl _
  · obtain ⟨hil, rfl⟩ := List.getElem?_eq_some.1 hi
    obtain ⟨hjl, rfl⟩ := List.getElem?_eq_some.1 hj
    exact List.pairwise_iff_getElem.1 hp i j hil hjl hlt

/-- A name that begins with "start " is never a name that begins with "stop ". -/
theorem start_ne_stop (a b : String) : "start " ++ a ≠ "stop " ++ b := by
  intro h
  have h2 := congrArg String.data h
  simp only [String.data_append] at h2
  simp at h2

/-- The lower case form of a lower case character is that character. -/
theorem toLower_toLower (c : Char) : c.toLower.toLower = c.toLower := by
  by_cases h : c.toNat ≥ 65 ∧ c.toNat ≤ 90
  · have e : c.toLower = Char.ofNat (c.toNat + 32) := by
      simp only [Char.toLower, h, and_self, if_true]
    rw [e]
    obtain ⟨h1, h2⟩ := h
    generalize c.toNat = n at h1 h2
    interval_cases n <;> decide
  · have e : c.toLower = c := by
      simp only [Char.toLower]
      rw [if_neg h]
    rw [e, e]

/-- Lower-casing a lower-cased string changes nothing. -/
theorem tolower_tolower (ID : String) : tolower (tolower ID) = tolower ID := by
  apply String.ext
  simp [tolower, toLower_toLower]

/-- Lower-casing goes through concatenation. -/
theorem tolower_append (a b : String) : tolower (a ++ b) = tolower a ++ tolower b := by
  apply String.ext
  simp [tolower, String.data_append]

/-- The scanning loop of `interval(std::string)` returns zero when the records
still to be scanned hold no "start" marker and none was found before, or hold
no "stop" marker and none was found before. -/
theorem intervalID.loop_missing (T : NanoTimer) (n : String) (now : Int) :
    ∀ (l : List NanoSplit) (item index1 index2 : Int),
      ((index1 ≤ -1 ∧ ∀ s ∈ l, s.name ≠ "start " ++ n) ∨
        (index2 ≤ -1 ∧ ∀ s ∈ l, s.name ≠ "stop " ++ n)) →
      intervalID.loop T n now l item index1 index2 = some 0 := by
  intro l
  induction l with
  | nil =>
    intro item index1 index2 _
    rfl
  | cons s rest ih =>
    intro item index1 index2 h
    rcases h with ⟨h1, hno⟩ | ⟨h2, hno⟩
    · have hs : s.name ≠ "start " ++ n := hno s (List.mem_cons_self _ _)
      have hnot : ¬ (index1 > -1 ∧
          (if s.name = "stop " ++ n then item else index2) > -1) := by
        intro hc; omega
      simp only [intervalID.loop, if_neg hs, if_neg hnot]
      exact ih _ _ _ (Or.inl ⟨h1, fun s' hs' => hno s' (List.mem_cons_of_mem _ hs')⟩)
    · have hs : s.name ≠ "stop " ++ n := hno s (List.mem_cons_self _ _)
      by_cases hA : s.name = "start " ++ n
      · have hnot : ¬ (item > -1 ∧ index2 > -1) := by
          intro hc; omega
        simp only [intervalID.loop, if_pos hA, if_neg hnot]
        exact ih _ _ _ (Or.inr ⟨h2, fun s' hs' => hno s' (List.mem_cons_of_mem _ hs')⟩)
      · have hnot : ¬ (index1 > -1 ∧ index2 > -1) := by
          intro hc; omega
        simp only [intervalID.loop, if_neg hA, if_neg hs, if_neg hnot]
        exact ih _ _ _ (Or.inr ⟨h2, fun s' hs' => hno s' (List.mem_cons_of_mem _ hs')⟩)

/-- The scanning loop of `interval(std::string)` when the log holds its only
"start" marker at position `i` and its only "stop" marker at position `j`: the
loop returns `interval(i, j)`. -/
theorem intervalID.loop_pair (T : NanoTimer) (n : String) (now : Int) (i j : Int) :
    ∀ (l : List NanoSplit) (item index1 index2 : Int),
      0 ≤ item →
      (∀ (k : Nat) (s : NanoSplit), l[k]? = some s →
        (s.name = "start " ++ n ↔ item + (k : Int) = i)) →
      (∀ (k : Nat) (s : NanoSplit), l[k]? = some s →
        (s.name = "stop " ++ n ↔ item + (k : Int) = j)) →
      ((index1 = -1 ∧ item ≤ i ∧ i < item + (l.length : Int)) ∨
        (index1 = i ∧ 0 ≤ i ∧ i < item)) →
      ((index2 = -1 ∧ item ≤ j ∧ j < item + (l.length : Int)) ∨
        (index2 = j ∧ 0 ≤ j ∧ j < item)) →
      ¬ (index1 > -1 ∧ index2 > -1) →
      intervalID.loop T n now l item index1 index2 = T.intervalIndices i j now := by
  intro l
  induction l with
  | nil =>
    intro item index1 index2 h0 _ _ h1 h2 hnot
    exfalso
    simp only [List.length_nil] at h1 h2
    omega
  | cons s rest ih =>
    intro item index1 index2 h0 hA hB h1 h2 hnot
    have hA0 := hA 0 s (by simp)
    have hB0 := hB 0 s (by simp)
    have hA' : ∀ (k : Nat) (s' : NanoSplit), rest[k]? = some s' →
        (s'.name = "start " ++ n ↔ item + 1 + (k : Int) = i) := by
      intro k s' hk
      have := hA (k + 1) s' (by simpa using hk)
      rw [this]; push_cast; constructor <;> intro h <;> omega
    have hB' : ∀ (k : Nat) (s' : NanoSplit), rest[k]? = some s' →
        (s'.name = "stop " ++ n ↔ item + 1 + (k : Int) = j) := by
      intro k s' hk
      have := hB (k + 1) s' (by simpa using hk)
      rw [this]; push_cast; constructor <;> intro h <;> omega
    simp only [List.length_cons, Nat.cast_add, Nat.cast_one] at h1 h2
    simp only [Nat.cast_zero, add_zero] at hA0 hB0
    by_cases hsA : s.name = "start " ++ n
    · have hi : item = i := hA0.1 hsA
      have hsB : s.name ≠ "stop " ++ n := by
        rw [hsA]; exact start_ne_stop n n
      have hj : item ≠ j := fun h => hsB (hB0.2 h)
      by_cases hboth : item > -1 ∧ index2 > -1
      · have h2' : index2 = j := by omega
        simp only [intervalID.loop, if_pos hsA, if_pos hboth]
        rw [hi, h2']
      · simp only [intervalID.loop, if_pos hsA, if_neg hboth]
        exact ih (item + 1) item index2 (by omega) hA' hB' (Or.inr (by omega))
          (by omega) (by omega)
    · have hi : item ≠ i := fun h => hsA (hA0.2 h)
      by_cases hsB : s.name = "stop " ++ n
      · have hj : item = j := hB0.1 hsB
        by_cases hboth : index1 > -1 ∧ item > -1
        · have h1' : index1 = i := by omega
          simp only [intervalID.loop, if_neg hsA, if_pos hsB, if_pos hboth]
          rw [hj, h1']
        · simp only [intervalID.loop, if_neg hsA, if_pos hsB, if_neg hboth]
          exact ih (item + 1) index1 item (by omega) hA' hB' (by omega)
            (Or.inr (by omega)) (by omega)
      · have hj : item ≠ j := fun h => hsB (hB0.2 h)
        simp only [intervalID.loop, if_neg hsA, if_neg hsB, if_neg hnot]
        exact ih (item + 1) index1 index2 (by omega) hA' hB' (by omega) (by omega) hnot

/-- A name that begins with "start " is not empty. -/
theorem start_append_ne_empty (a : String) : "start " ++ a ≠ "" := by
  intro h
  have h2 := congrArg String.data h
  simp only [String.data_append] at h2
  simp at h2

/-- A name that begins with "stop " is not empty. -/
theorem stop_append_ne_empty (a : String) : "stop " ++ a ≠ "" := by
  intro h
  have h2 := congrArg String.data h
  simp only [String.data_append] at h2
  simp at h2

/-- The lower case form of a "start" marker name. -/
theorem tolower_start_append (a : String) : tolower ("start " ++ a) = "start " ++ tolower a := by
  rw [tolower_append]
  have h : tolower "start " = "start " := by decide
  rw [h]

/-- The lower case form of a "stop" marker name. -/
theorem tolower_stop_append (a : String) : tolower ("stop " ++ a) = "stop " ++ tolower a := by
  rw [tolower_append]
  have h : tolower "stop " = "stop " := by decide
  rw [h]

/-- What `start` does, for any state and name. -/
theorem start_eq (T : NanoTimer) (ID : String) (now : Int) :
    T.start ID now = some (scale T now,
      { T with running := true,
               splits := [NanoSplit.mk (if ID = "" then "start" else tolower ID) now] }) := by
  by_cases hn : ID = ""
  · subst hn
    have hs : tolower "start" = "start" := by decide
    simp [start, reset, split, back, front, scale, hs]
  · have hne : tolower ID ≠ "" := fun h => hn ((tolower_eq_empty ID).1 h)
    simp [start, reset, split, back, front, scale, hn, hne]

/-- The call `indexFromSplitID` returns a value for every state and name. -/
theorem indexFromSplitID_total (T : NanoTimer) (n : String) :
    ∃ r, T.indexFromSplitID n = some r := by
  by_cases hne : T.numSplits = 0
  · exact ⟨-1, by simp [indexFromSplitID, hne]⟩
  · obtain ⟨f, hf, _⟩ := front_of_ne T hne
    obtain ⟨b, hb, _⟩ := back_of_ne T hne
    exact ⟨_, by simp only [indexFromSplitID, if_neg hne, hf, hb]; rfl⟩

/-- The call `interval(std::string, std::string)` returns a value for every
state and pair of names. -/
theorem intervalIDs_total (T : NanoTimer) (n1 n2 : String) :
    ∃ v, T.intervalIDs n1 n2 = some v := by
  by_cases hne : T.numSplits = 0
  · exact ⟨zero, by simp [intervalIDs, hne]⟩
  · obtain ⟨r1, h1⟩ := indexFromSplitID_total T (tolower n1)
    obtain ⟨r2, h2⟩ := indexFromSplitID_total T (tolower n2)
    obtain ⟨v1, hv1⟩ := time_total T (max r1 r2)
    obtain ⟨v2, hv2⟩ := time_total T (min r1 r2)
    by_cases hin : r1 > -1 ∧ r1 < T.numSplits ∧ r2 > -1 ∧ r2 < T.numSplits
    · exact ⟨v1 - v2, by
        simp only [intervalIDs, if_neg hne, h1, h2, Option.bind_eq_bind, Option.some_bind,
          if_pos hin, hv1, hv2]
        rfl⟩
    · exact ⟨zero, by
        simp only [intervalIDs, if_neg hne, h1, h2, Option.bind_eq_bind, Option.some_bind,
          if_neg hin]⟩

/-- The staged benchmark on a running timer returns and appends its two markers. -/
theorem benchmarkID_running (T : NanoTimer) (stage : String × Int × Int)
    (hrun : T.running = true) :
    ∃ v, T.benchmarkID stage.1 stage.2.1 stage.2.2
      = some (v, { T with splits := T.splits ++ stageMarkers stage }) := by
  obtain ⟨tb, fm, run, sp⟩ := T
  simp only at hrun
  subst hrun
  have hA : tolower ("start " ++ stage.1) ≠ "" := by
    rw [tolower_start_append]; exact start_append_ne_empty _
  have hB : tolower ("stop " ++ stage.1) ≠ "" := by
    rw [tolower_stop_append]; exact stop_append_ne_empty _
  obtain ⟨v, hv⟩ := intervalIDs_total
    (NanoTimer.mk tb fm true (sp ++ stageMarkers stage)) ("start " ++ stage.1) ("stop " ++ stage.1)
  refine ⟨v, ?_⟩
  have h1 := split_running (NanoTimer.mk tb fm true sp) ("start " ++ stage.1) stage.2.1 rfl
  rw [if_neg hA] at h1
  have h2 := split_running
    (NanoTimer.mk tb fm true (sp ++ [NanoSplit.mk (tolower ("start " ++ stage.1)) stage.2.1]))
    ("stop " ++ stage.1) stage.2.2 rfl
  rw [if_neg hB] at h2
  have hl : (sp ++ [NanoSplit.mk (tolower ("start " ++ stage.1)) stage.2.1]) ++
      [NanoSplit.mk (tolower ("stop " ++ stage.1)) stage.2.2] = sp ++ stageMarkers stage := by
    simp [stageMarkers]
  simp only [hl] at h2
  simp only [benchmarkID, Bool.true_eq_false, if_false, h1, Option.bind_eq_bind,
    Option.some_bind, h2, hv]
  rfl

/-- A run of staged benchmarks on a running timer returns and appends the
markers of its stages. -/
theorem benchmarkIDs_running (more : List (String × Int × Int)) :
    ∀ (T : NanoTimer), T.running = true →
      T.benchmarkIDs more = some { T with splits := T.splits ++ stagesLog more } := by
  induction more with
  | nil =>
    intro T _
    simp [benchmarkIDs, stagesLog]
  | cons stage more ih =>
    intro T hrun
    obtain ⟨v, hv⟩ := benchmarkID_running T stage hrun
    simp only [benchmarkIDs, hv, Option.bind_eq_bind, Option.some_bind]
    rw [ih { T with splits := T.splits ++ stageMarkers stage } hrun]
    simp [stagesLog]

/-- The staged benchmark on a timer that is not running returns the difference
of the scaled clock readings and leaves a running timer whose log holds its two
markers. -/
theorem benchmarkID_idle (T : NanoTimer) (stage : String × Int × Int)
    (hrun : T.running = false) :
    T.benchmarkID stage.1 stage.2.1 stage.2.2
      = some (T.scale stage.2.2 - T.scale stage.2.1,
          { T with running := true, splits := stageMarkers stage }) := by
  have hA : tolower ("start " ++ stage.1) ≠ "" := by
    rw [tolower_start_append]; exact start_append_ne_empty _
  have hB : tolower ("stop " ++ stage.1) ≠ "" := by
    rw [tolower_stop_append]; exact stop_append_ne_empty _
  have hAB : tolower ("start " ++ stage.1) ≠ tolower ("stop " ++ stage.1) := by
    rw [tolower_start_append, tolower_stop_append]; exact start_ne_stop _ _
  have h1 := start_eq T ("start " ++ stage.1) stage.2.1
  rw [if_neg (start_append_ne_empty _)] at h1
  have h2 := split_running
    { T with running := true,
             splits := [NanoSplit.mk (tolower ("start " ++ stage.1)) stage.2.1] }
    ("stop " ++ stage.1) stage.2.2 rfl
  rw [if_neg hB] at h2
  have hv : intervalIDs { T with running := true, splits := stageMarkers stage }
      ("start " ++ stage.1) ("stop " ++ stage.1)
      = some (T.scale stage.2.2 - T.scale stage.2.1) := by
    simp [intervalIDs, numSplits, stageMarkers, indexFromSplitID, front, back,
      indexFromSplitID.loop, tolower_tolower, hAB, hAB.symm, time, nth, scale]
  simp only [benchmarkID, hrun, if_true, h1, Option.bind_eq_bind, Option.some_bind, h2]
  simp only [List.singleton_append, stageMarkers] at hv ⊢
  rw [hv]
  rfl

/-- On a log that begins with the two markers of the lower case stage id `s`
and that `s` does not resolve on, `interval(s)` is the difference of the scaled
timestamps of these two markers. -/
theorem intervalID_first_stage (T : NanoTimer) (s : String) (t1 t2 now : Int)
    (rest : List NanoSplit) (hlow : tolower s = s)
    (hsplits : T.splits = stageMarkers (s, t1, t2) ++ rest)
    (hres : T.indexFromSplitID s = some (-1)) :
    T.intervalID s now = some (T.scale t2 - T.scale t1) := by
  have hne : T.numSplits ≠ 0 := by
    simp [numSplits, hsplits, stageMarkers]
    omega
  have hA : tolower ("start " ++ s) = "start " ++ s := by rw [tolower_start_append, hlow]
  have hB : tolower ("stop " ++ s) = "stop " ++ s := by rw [tolower_stop_append, hlow]
  have hl : T.splits = NanoSplit.mk ("start " ++ s) t1 :: NanoSplit.mk ("stop " ++ s) t2 :: rest := by
    rw [hsplits]; simp [stageMarkers, hA, hB]
  have hidx : T.intervalID s now = intervalID.loop T s now T.splits 0 (-1) (-1) := by
    simp [intervalID, hne, hres]
  have hBA : "stop " ++ s ≠ "start " ++ s := fun h => start_ne_stop s s h.symm
  have hloop : intervalID.loop T s now T.splits 0 (-1) (-1) = T.intervalIndices 0 1 now := by
    rw [hl]
    simp [intervalID.loop, hBA]
  have hflt : ¬ ((((0 : Nat) : Int) = 0 ∨ ((0 : Nat) : Int) = -1 ∨
        ((0 : Nat) : Int) ≥ T.numSplits) ∧
      (((1 : Nat) : Int) = 0 ∨ ((1 : Nat) : Int) = -1 ∨ ((1 : Nat) : Int) ≥ T.numSplits)) := by
    simp [numSplits, hl]
  have hval := intervalIndices_inner T ((0 : Nat) : Int) ((1 : Nat) : Int) now 0 1
    (NanoSplit.mk ("stop " ++ s) t2) (NanoSplit.mk ("start " ++ s) t1) hflt
    (by simp) (by simp) (by simp [hl]) (by simp [hl])
  rw [hidx, hloop]
  simpa using hval

/-- What `stop` does on a running timer, for any name. -/
theorem stop_running (T : NanoTimer) (ID : String) (now : Int) (hrun : T.running = true) :
    T.stop ID now = some (scale T now,
      { T with running := false,
               splits := T.splits ++
                 [NanoSplit.mk (if ID = "" then "stop" else tolower ID) now] }) := by
  by_cases hn : ID = ""
  · subst hn
    have hs : tolower "stop" = "stop" := by decide
    simp [stop, hrun, split_running, hs, back, scale]
  · have hne : tolower ID ≠ "" := fun h => hn ((tolower_eq_empty ID).1 h)
    simp [stop, hrun, split_running, hn, hne, back, scale]

/-- The state `start()` followed by `stop()` leaves. -/
theorem start_stop_eq (T : NanoTimer) (now1 now2 : Int) :
    (T.start "" now1).bind (fun p => p.2.stop "" now2)
      = some (scale T now2,
          { T with running := false,
                   splits := [NanoSplit.mk "start" now1, NanoSplit.mk "stop" now2] }) := by
  rw [start_eq]
  simp only [Option.some_bind, if_true]
  rw [stop_running _ "" now2 rfl]
  simp [scale]

/-- The scanning loop of `indexFromSplitID` on a log extended by one record:
the new record wins when it carries the name. -/
theorem indexFromSplitID.loop_snoc (m : String) :
    ∀ (l : List NanoSplit) (s : NanoSplit) (item found : Int),
      indexFromSplitID.loop m (l ++ [s]) item found
        = if s.name = m then item + (l.length : Int) else indexFromSplitID.loop m l item found := by
  intro l
  induction l with
  | nil =>
    intro s item found
    simp [indexFromSplitID.loop]
  | cons x rest ih =>
    intro s item found
    have e : indexFromSplitID.loop m (x :: rest ++ [s]) item found
        = indexFromSplitID.loop m (rest ++ [s]) (item + 1)
            (if x.name = m then item else found) := rfl
    rw [e, ih]
    by_cases h : s.name = m
    · simp only [if_pos h, List.length_cons]
      push_cast
      ring
    · simp only [if_neg h]
      rfl

/-- The record before the last of a log that ends in `a`, `b`. -/
theorem getElem?_append_two_left {α : Type} (L : List α) (a b : α) :
    (L ++ [a, b])[L.length]? = some a := by
  rw [List.getElem?_append_right (le_refl _)]
  simp

/-- The last record of a log that ends in `a`, `b`. -/
theorem getElem?_append_two_right {α : Type} (L : List α) (a b : α) :
    (L ++ [a, b])[L.length + 1]? = some b := by
  rw [List.getElem?_append_right (Nat.le_succ _)]
  simp

/-- The name resolver on a log that ends in the records `a` and `b`, for a
lower case name: the name of `b` resolves to the last position, and the name
of `a`, when `b` does not carry it, to the position before. -/
theorem indexFromSplitID_last_two (T : NanoTimer) (m : String) (L : List NanoSplit)
    (a b : NanoSplit) (hs : T.splits = L ++ [a, b]) (hm : tolower m = m) :
    (a.name = m → b.name ≠ m → T.indexFromSplitID m = some (L.length : Int)) ∧
    (b.name = m → T.indexFromSplitID m = some ((L.length : Int) + 1)) := by
  have hne : T.numSplits ≠ 0 := by
    simp [numSplits, hs]
    omega
  obtain ⟨f, hf, _⟩ := front_of_ne T hne
  obtain ⟨l, hl, _⟩ := back_of_ne T hne
  have hsp : T.splits = (L ++ [a]) ++ [b] := by rw [hs]; simp
  have hidx : ∀ found : Int, indexFromSplitID.loop m T.splits 0 found
      = if b.name = m then ((L.length : Int) + 1)
        else if a.name = m then (L.length : Int)
        else indexFromSplitID.loop m L 0 found := by
    intro found
    rw [hsp, indexFromSplitID.loop_snoc, indexFromSplitID.loop_snoc]
    simp
  constructor
  · intro ha hb
    simp only [indexFromSplitID, if_neg hne, hf, hl, hm, Option.bind_eq_bind, Option.some_bind]
    rw [show (pure (indexFromSplitID.loop m T.splits 0 _) : Option Int)
      = some (indexFromSplitID.loop m T.splits 0 _) from rfl, hidx, if_neg hb, if_pos ha]
  · intro hb
    simp only [indexFromSplitID, if_neg hne, hf, hl, hm, Option.bind_eq_bind, Option.some_bind]
    rw [show (pure (indexFromSplitID.loop m T.splits 0 _) : Option Int)
      = some (indexFromSplitID.loop m T.splits 0 _) from rfl, hidx, if_pos hb]

/-- The call `time(-2)` on a log that ends in the records `a` and `b` returns
the scaled timestamp of `a`. -/
theorem time_neg_two (T : NanoTimer) (L : List NanoSplit) (a b : NanoSplit)
    (hs : T.splits = L ++ [a, b]) : T.time (-2) = some (T.scale a.time) := by
  have hn : T.numSplits = (L.length : Int) + 2 := by
    simp [numSplits, hs]
  have hne : T.numSplits ≠ 0 := by omega
  have hb : (-2 : Int) + 1 * T.numSplits > -1 ∧ (-2 : Int) + 1 * T.numSplits < T.numSplits := by
    constructor <;> omega
  have hnth : T.nth ((-2 : Int) + 1 * T.numSplits) = some a := by
    have hz : (-2 : Int) + 1 * T.numSplits = (L.length : Int) := by omega
    rw [hz, nth, if_pos (by omega), hs]
    simpa using getElem?_append_two_left L a b
  simp only [time, if_neg hne, show ¬ ((-2 : Int) = 0) by decide,
    show ¬ ((-2 : Int) = -1) by decide, show ((-2 : Int) < 0) by decide, if_true, if_false,
    if_pos hb, hnth]
  rfl

/-- The call `time(-1)` on a log that ends in the record `b` returns the scaled
timestamp of `b`. -/
theorem time_neg_one (T : NanoTimer) (L : List NanoSplit) (b : NanoSplit)
    (hs : T.splits = L ++ [b]) : T.time (-1) = some (T.scale b.time) := by
  have hne : T.numSplits ≠ 0 := by
    simp [numSplits, hs]
    omega
  simp [time, hne, back, hs]

/-- On a log that ends in the two markers of a stage, the two-name query for
these markers returns the difference of their scaled timestamps. -/
theorem intervalIDs_last_stage (T : NanoTimer) (L : List NanoSplit)
    (stage : String × Int × Int) (hs : T.splits = L ++ stageMarkers stage) :
    T.intervalIDs ("start " ++ stage.1) ("stop " ++ stage.1)
      = some (T.scale stage.2.2 - T.scale stage.2.1) := by
  have hAB : tolower ("start " ++ stage.1) ≠ tolower ("stop " ++ stage.1) := by
    rw [tolower_start_append, tolower_stop_append]; exact start_ne_stop _ _
  have hs2 : T.splits = L ++ [NanoSplit.mk (tolower ("start " ++ stage.1)) stage.2.1,
      NanoSplit.mk (tolower ("stop " ++ stage.1)) stage.2.2] := by
    rw [hs]; rfl
  have hn : T.numSplits = (L.length : Int) + 2 := by
    simp [numSplits, hs2]
  have hne : T.numSplits ≠ 0 := by omega
  have h1 := (indexFromSplitID_last_two T _ L _ _ hs2 (tolower_tolower _)).1 rfl
    (fun h => hAB h.symm)
  have h2 := (indexFromSplitID_last_two T _ L _ _ hs2 (tolower_tolower ("stop " ++ stage.1))).2 rfl
  have hta : T.time (L.length : Int) = some (T.scale stage.2.1) :=
    time_natIndex T L.length (NanoSplit.mk (tolower ("start " ++ stage.1)) stage.2.1)
      (by rw [hs2]; exact getElem?_append_two_left L _ _)
  have htb : T.time ((L.length : Int) + 1) = some (T.scale stage.2.2) := by
    have h := time_natIndex T (L.length + 1)
      (NanoSplit.mk (tolower ("stop " ++ stage.1)) stage.2.2)
      (by rw [hs2]; exact getElem?_append_two_right L _ _)
    simpa using h
  have hrange : (L.length : Int) > -1 ∧ (L.length : Int) < T.numSplits ∧
      (L.length : Int) + 1 > -1 ∧ (L.length : Int) + 1 < T.numSplits := by
    refine ⟨by omega, by omega, by omega, by omega⟩
  have hmax : max (L.length : Int) ((L.length : Int) + 1) = (L.length : Int) + 1 :=
    max_eq_right (by omega)
  have hmin : min (L.length : Int) ((L.length : Int) + 1) = (L.length : Int) :=
    min_eq_left (by omega)
  simp only [intervalIDs, if_neg hne, h1, h2, Option.bind_eq_bind, Option.some_bind,
    if_pos hrange, hmax, hmin, hta, htb]
  rfl

/-- What the staged benchmark does, for every state: it returns the difference
of the scaled clock readings and leaves a running timer whose log is the old
log (when the timer was running) or the empty log (when it was not) followed by
the two markers of the stage. -/
theorem benchmarkID_eq (T : NanoTimer) (stage : String × Int × Int) :
    T.benchmarkID stage.1 stage.2.1 stage.2.2
      = some (T.scale stage.2.2 - T.scale stage.2.1,
          { T with running := true,
                   splits := (if T.running = true then T.splits else []) ++ stageMarkers stage }) := by
  by_cases hrun : T.running = true
  · obtain ⟨tb, fm, run, sp⟩ := T
    simp only at hrun
    subst hrun
    have hA : tolower ("start " ++ stage.1) ≠ "" := by
      rw [tolower_start_append]; exact start_append_ne_empty _
    have hB : tolower ("stop " ++ stage.1) ≠ "" := by
      rw [tolower_stop_append]; exact stop_append_ne_empty _
    have hv := intervalIDs_last_stage (NanoTimer.mk tb fm true (sp ++ stageMarkers stage)) sp
      stage rfl
    have h1 := split_running (NanoTimer.mk tb fm true sp) ("start " ++ stage.1) stage.2.1 rfl
    rw [if_neg hA] at h1
    have h2 := split_running
      (NanoTimer.mk tb fm true (sp ++ [NanoSplit.mk (tolower ("start " ++ stage.1)) stage.2.1]))
      ("stop " ++ stage.1) stage.2.2 rfl
    rw [if_neg hB] at h2
    have hl : (sp ++ [NanoSplit.mk (tolower ("start " ++ stage.1)) stage.2.1]) ++
        [NanoSplit.mk (tolower ("stop " ++ stage.1)) stage.2.2] = sp ++ stageMarkers stage := by
      simp [stageMarkers]
    simp only [hl] at h2
    simp only [benchmarkID, Bool.true_eq_false, if_false, h1, Option.bind_eq_bind,
      Option.some_bind, h2, hv, if_true]
    rfl
  · have hidle : T.running = false := by
      cases h : T.running
      · rfl
      · exact absurd h hrun
    rw [benchmarkID_idle T stage hidle, if_neg hrun]
    rfl

/-- What the value-returning staged benchmark does, for every state: it returns
the value of the callable and leaves the state the void overload leaves. -/
theorem benchmarkIDValue_eq {RETURNTYPE : Type} (T : NanoTimer) (result : RETURNTYPE)
    (stage : String × Int × Int) :
    T.benchmarkIDValue result stage.1 stage.2.1 stage.2.2
      = some (result,
          { T with running := true,
                   splits := (if T.running = true then T.splits else []) ++ stageMarkers stage }) := by
  have hA : tolower ("start " ++ stage.1) ≠ "" := by
    rw [tolower_start_append]; exact start_append_ne_empty _
  have hB : tolower ("stop " ++ stage.1) ≠ "" := by
    rw [tolower_stop_append]; exact stop_append_ne_empty _
  obtain ⟨tb, fm, run, sp⟩ := T
  cases run
  · have h1 := start_eq (NanoTimer.mk tb fm false sp) ("start " ++ stage.1) stage.2.1
    rw [if_neg (start_append_ne_empty _)] at h1
    have h2 := split_running
      (NanoTimer.mk tb fm true [NanoSplit.mk (tolower ("start " ++ stage.1)) stage.2.1])
      ("stop " ++ stage.1) stage.2.2 rfl
    rw [if_neg hB] at h2
    simp only [benchmarkIDValue, if_true, h1, Option.bind_eq_bind, Option.some_bind, h2]
    simp [stageMarkers]
  · have h1 := split_running (NanoTimer.mk tb fm true sp) ("start " ++ stage.1) stage.2.1 rfl
    rw [if_neg hA] at h1
    have h2 := split_running
      (NanoTimer.mk tb fm true (sp ++ [NanoSplit.mk (tolower ("start " ++ stage.1)) stage.2.1]))
      ("stop " ++ stage.1) stage.2.2 rfl
    rw [if_neg hB] at h2
    simp only [benchmarkIDValue, Bool.true_eq_false, if_false, h1, Option.bind_eq_bind,
      Option.some_bind, h2]
    simp [stageMarkers]

/-- The loop of `listTimes` appends the scaled timestamps of the records, in
log order, to the data it starts with. -/
theorem listTimes_loop_eq (T : NanoTimer) :
    ∀ (l : List NanoSplit) (data : List ℚ),
      listTimes.loop T l data = data ++ l.map (fun s => T.scale s.time) := by
  intro l
  induction l with
  | nil => intro data; simp [listTimes.loop]
  | cons s rest ih => intro data; simp [listTimes.loop, ih]

/-- The loop of `listIds` appends the names of the records, in log order, to
the data it starts with. -/
theorem listIds_loop_eq :
    ∀ (l : List NanoSplit) (data : List String),
      listIds.loop l data = data ++ l.map NanoSplit.name := by
  intro l
  induction l with
  | nil => intro data; simp [listIds.loop]
  | cons s rest ih => intro data; simp [listIds.loop, ih]

/-- The loop of `list` appends the names and the scaled timestamps of the
records, in log order, to the two vectors it starts with. -/
theorem list_loop_eq (T : NanoTimer) :
    ∀ (l : List NanoSplit) (IDs : List String) (Timestamps : List ℚ),
      list.loop T l IDs Timestamps
        = (IDs ++ l.map NanoSplit.name, Timestamps ++ l.map (fun s => T.scale s.time)) := by
  intro l
  induction l with
  | nil => intro IDs Timestamps; simp [list.loop]
  | cons s rest ih => intro IDs Timestamps; simp [list.loop, ih]

/-- Every digit character is its own lower case form. -/
theorem digitChar_toLower (d : Nat) : (Nat.digitChar d).toLower = Nat.digitChar d := by
  by_cases h : d < 16
  · interval_cases d <;> decide
  · obtain ⟨n, rfl⟩ : ∃ n, d = n + 16 := ⟨d - 16, by omega⟩
    have e : Nat.digitChar (n + 16) = '*' := by simp [Nat.digitChar]
    rw [e]
    decide

/-- Every character of a printed number is its own lower case form. -/
theorem toDigitsCore_toLower (b : Nat) :
    ∀ (fuel n : Nat) (ds : List Char), (∀ c ∈ ds, c.toLower = c) →
      ∀ c ∈ Nat.toDigitsCore b fuel n ds, c.toLower = c := by
  intro fuel
  induction fuel with
  | zero =>
    intro n ds h c hc
    simp only [Nat.toDigitsCore] at hc
    exact h c hc
  | succ fuel ih =>
    intro n ds h c hc
    simp only [Nat.toDigitsCore] at hc
    have hds : ∀ c ∈ Nat.digitChar (n % b) :: ds, c.toLower = c := by
      intro c' hc'
      rcases List.mem_cons.1 hc' with h1 | h1
      · rw [h1]; exact digitChar_toLower _
      · exact h c' h1
    split_ifs at hc
    · exact hds c hc
    · exact ih _ _ hds c hc

/-- The sequential number `split` gives an unnamed record is in lower case form. -/
theorem tolower_toString_succ (k : Nat) :
    tolower (toString ((k : Int) + 1)) = toString ((k : Int) + 1) := by
  have h1 : ((k : Int) + 1) = Int.ofNat (k + 1) := by simp
  have h2 : toString (Int.ofNat (k + 1)) = toString (k + 1) := rfl
  have h3 : (toString (k + 1)).data = Nat.toDigits 10 (k + 1) := rfl
  rw [h1, h2]
  apply String.ext
  simp only [tolower, h3]
  have e : List.map Char.toLower (Nat.toDigits 10 (k + 1))
      = List.map id (Nat.toDigits 10 (k + 1)) :=
    List.map_congr_left (fun c hc => toDigitsCore_toLower 10 _ _ [] (by simp) c hc)
  rw [e, List.map_id]

/-- An upper case letter is not its own lower case form. -/
theorem toLower_ne_of_upper (c : Char) (h : 65 ≤ c.toNat ∧ c.toNat ≤ 90) : c.toLower ≠ c := by
  have hc : c = Char.ofNat c.toNat := (Char.ofNat_toNat c).symm
  obtain ⟨h1, h2⟩ := h
  generalize c.toNat = n at hc h1 h2
  subst hc
  interval_cases n <;> decide

/-- A name in lower case form holds no upper case letter. -/
theorem no_upper_of_tolower_eq (n : String) (h : tolower n = n) :
    ∀ c ∈ n.data, ¬ (65 ≤ c.toNat ∧ c.toNat ≤ 90) := by
  have hd : n.data.map Char.toLower = n.data := by
    have := congrArg String.data h
    simpa [tolower] using this
  have key : ∀ l : List Char, l.map Char.toLower = l → ∀ c ∈ l, c.toLower = c := by
    intro l
    induction l with
    | nil => intro _ c hc; cases hc
    | cons x rest ih =>
      intro hl c hc
      simp only [List.map_cons, List.cons.injEq] at hl
      rcases List.mem_cons.1 hc with h1 | h1
      · rw [h1]; exact hl.1
      · exact ih hl.2 c h1
  intro c hc hup
  exact toLower_ne_of_upper c hup (key n.data hd c hc)

/-- The call `split` returns and keeps the names of the log in lower case form. -/
theorem split_normalised (T : NanoTimer) (ID : String) (now : Int) :
    ∃ (v : ℚ) (T' : NanoTimer), T.split ID now = some (v, T') ∧
      (T.Normalised → T'.Normalised) := by
  cases hrun : T.running
  · exact ⟨0, T, split_idle T ID now hrun, id⟩
  · refine ⟨_, _, split_running T ID now hrun, ?_⟩
    intro hN s hs
    rcases List.mem_append.1 hs with h | h
    · exact hN s h
    · rw [List.mem_singleton.1 h]
      by_cases he : tolower ID = ""
      · simp only [if_pos he, numSplits]
        exact tolower_toString_succ _
      · simp only [if_neg he]
        exact tolower_tolower ID

/-- The call `start` returns and leaves a log with names in lower case form. -/
theorem start_normalised (T : NanoTimer) (ID : String) (now : Int) :
    ∃ (v : ℚ) (T' : NanoTimer), T.start ID now = some (v, T') ∧ T'.Normalised := by
  refine ⟨_, _, start_eq T ID now, ?_⟩
  intro s hs
  rw [List.mem_singleton.1 hs]
  by_cases he : ID = ""
  · simp only [if_pos he]
    decide
  · simp only [if_neg he]
    exact tolower_tolower ID

/-- The call `stop` returns and keeps the names of the log in lower case form. -/
theorem stop_normalised (T : NanoTimer) (ID : String) (now : Int) :
    ∃ (v : ℚ) (T' : NanoTimer), T.stop ID now = some (v, T') ∧
      (T.Normalised → T'.Normalised) := by
  cases hrun : T.running
  · exact ⟨0, T, by simp [stop, hrun, zero], id⟩
  · refine ⟨_, _, stop_running T ID now hrun, ?_⟩
    intro hN s hs
    rcases List.mem_append.1 hs with h | h
    · exact hN s h
    · rw [List.mem_singleton.1 h]
      by_cases he : ID = ""
      · simp only [if_pos he]
        decide
      · simp only [if_neg he]
        exact tolower_tolower ID

/-- The two markers of a stage have names in lower case form. -/
theorem stageMarkers_normalised (stage : String × Int × Int) :
    ∀ s ∈ stageMarkers stage, tolower s.name = s.name := by
  intro s hs
  simp only [stageMarkers, List.mem_cons, List.mem_singleton, List.not_mem_nil, or_false] at hs
  rcases hs with h | h <;> rw [h] <;> exact tolower_tolower _

/-- Every call that writes to the log returns and keeps the names of the log
in lower case form. -/
theorem Call.run_normalised (T : NanoTimer) (c : Call) :
    ∃ T', Call.run T c = some T' ∧ (T.Normalised → T'.Normalised) := by
  cases c with
  | reset =>
    exact ⟨T.reset, rfl, fun _ s hs => by cases hs⟩
  | split ID now =>
    obtain ⟨v, T', h, hN⟩ := split_normalised T ID now
    exact ⟨T', by simp [Call.run, h], hN⟩
  | start ID now =>
    obtain ⟨v, T', h, hN⟩ := start_normalised T ID now
    exact ⟨T', by simp [Call.run, h], fun _ => hN⟩
  | stop ID now =>
    obtain ⟨v, T', h, hN⟩ := stop_normalised T ID now
    exact ⟨T', by simp [Call.run, h], hN⟩
  | benchmark now1 now2 now3 =>
    have hss := start_stop_eq T now1 now2
    have hint :
        interval { T with running := false,
                          splits := [NanoSplit.mk "start" now1, NanoSplit.mk "stop" now2] } now3
          = some (scale T now2 - scale T now1) := by
      simp [interval, front, back, scale]
    have h : T.benchmark now1 now2 now3
        = ((T.start "" now1).bind (fun p => p.2.stop "" now2)).bind
            (fun q => (q.2.interval now3).bind (fun r => some (r, q.2))) := by
      simp only [benchmark, Option.bind_eq_bind, Option.bind_assoc]
      rfl
    refine ⟨{ T with running := false,
                     splits := [NanoSplit.mk "start" now1, NanoSplit.mk "stop" now2] }, ?_, ?_⟩
    · simp only [Call.run, h, hss, Option.some_bind, hint, Option.map_some']
    · intro _ s hs
      simp only [List.mem_cons, List.mem_singleton, List.not_mem_nil, or_false] at hs
      rcases hs with h | h <;> rw [h]
      · exact (by decide : tolower "start" = "start")
      · exact (by decide : tolower "stop" = "stop")
  | benchmarkValue now1 now2 =>
    have hss := start_stop_eq T now1 now2
    have h : T.benchmarkValue () now1 now2
        = ((T.start "" now1).bind (fun p => p.2.stop "" now2)).bind
            (fun q => some ((), q.2)) := by
      simp only [benchmarkValue, Option.bind_eq_bind, Option.bind_assoc]
      rfl
    refine ⟨{ T with running := false,
                     splits := [NanoSplit.mk "start" now1, NanoSplit.mk "stop" now2] }, ?_, ?_⟩
    · simp only [Call.run, h, hss, Option.some_bind, Option.map_some']
    · intro _ s hs
      simp only [List.mem_cons, List.mem_singleton, List.not_mem_nil, or_false] at hs
      rcases hs with h | h <;> rw [h]
      · exact (by decide : tolower "start" = "start")
      · exact (by decide : tolower "stop" = "stop")
  | benchmarkID id now1 now2 =>
    refine ⟨{ T with running := true,
                     splits := (if T.running = true then T.splits else [])
                       ++ stageMarkers (id, now1, now2) },
      by simp only [Call.run, benchmarkID_eq T (id, now1, now2), Option.map_some'], ?_⟩
    intro hN s hs
    rcases List.mem_append.1 hs with h | h
    · by_cases hrun : T.running = true
      · rw [if_pos hrun] at h; exact hN s h
      · rw [if_neg hrun] at h; cases h
    · exact stageMarkers_normalised _ s h
  | benchmarkIDValue id now1 now2 =>
    refine ⟨{ T with running := true,
                     splits := (if T.running = true then T.splits else [])
                       ++ stageMarkers (id, now1, now2) },
      by simp only [Call.run, benchmarkIDValue_eq T () (id, now1, now2), Option.map_some'], ?_⟩
    intro hN s hs
    rcases List.mem_append.1 hs with h | h
    · by_cases hrun : T.running = true
      · rw [if_pos hrun] at h; exact hN s h
      · rw [if_neg hrun] at h; cases h
    · exact stageMarkers_normalised _ s h

/-- Every sequence of calls that write to the log returns and keeps the names
of the log in lower case form. -/
theorem runCalls_normalised (calls : List Call) :
    ∀ T : NanoTimer, T.Normalised → ∃ T', runCalls T calls = some T' ∧ T'.Normalised := by
  induction calls with
  | nil => intro T hN; exact ⟨T, rfl, hN⟩
  | cons c more ih =>
    intro T hN
    obtain ⟨T1, h1, hN1⟩ := Call.run_normalised T c
    obtain ⟨T2, h2, hN2⟩ := ih T1 (hN1 hN)
    exact ⟨T2, by simp only [runCalls, h1, Option.some_bind, h2], hN2⟩

/-- The sequential number of an unnamed record, printed from an `int`, is the
decimal string of the natural number. -/
theorem toString_int_succ (k : Nat) : toString ((k : Int) + 1) = Nat.repr (k + 1) := by
  have h1 : ((k : Int) + 1) = Int.ofNat (k + 1) := by simp
  rw [h1]
  rfl

/-- The call `interval()` returns a value exactly on a non-empty log. -/
theorem interval_defined_iff (T : NanoTimer) (now : Int) :
    (∃ v, T.interval now = some v) ↔ T.splits ≠ [] := by
  constructor
  · rintro ⟨v, hv⟩ hnil
    simp [interval, front, hnil] at hv
  · intro hne
    refine interval_total T now ?_
    unfold numSplits
    intro h
    exact hne (List.length_eq_zero.1 (by omega))

/-- The call `split` returns and keeps the shape of the log. -/
theorem split_shape (T : NanoTimer) (ID : String) (now : Int) :
    ∃ (v : ℚ) (T' : NanoTimer), T.split ID now = some (v, T') ∧ (T.LogShape → T'.LogShape) := by
  cases hrun : T.running
  · exact ⟨0, T, split_idle T ID now hrun, id⟩
  · refine ⟨_, _, split_running T ID now hrun, ?_⟩
    intro _
    unfold LogShape
    refine ⟨fun _ => by simp, fun h => ?_⟩
    simp only at h
    rw [hrun] at h
    cases h

/-- The call `stop` returns and keeps the shape of the log. -/
theorem stop_shape (T : NanoTimer) (ID : String) (now : Int) :
    ∃ (v : ℚ) (T' : NanoTimer), T.stop ID now = some (v, T') ∧ (T.LogShape → T'.LogShape) := by
  cases hrun : T.running
  · exact ⟨0, T, by simp [stop, hrun, zero], id⟩
  · refine ⟨_, _, stop_running T ID now hrun, ?_⟩
    intro hS
    unfold LogShape at hS ⊢
    have h1 := hS.1 hrun
    refine ⟨fun h => (by cases h), fun _ => Or.inr ?_⟩
    simp only [List.length_append, List.length_singleton]
    omega

/-- Every call that writes to the log returns and keeps the shape of the log. -/
theorem Call.run_shape (T : NanoTimer) (c : Call) :
    ∃ T', Call.run T c = some T' ∧ (T.LogShape → T'.LogShape) := by
  have htwo : ∀ (a b : NanoSplit),
      LogShape { T with running := false, splits := [a, b] } := by
    intro a b
    unfold LogShape
    exact ⟨fun h => (by cases h), fun _ => Or.inr (by simp)⟩
  have hstage : ∀ stage : String × Int × Int,
      LogShape { T with running := true,
                        splits := (if T.running = true then T.splits else [])
                          ++ stageMarkers stage } := by
    intro stage
    unfold LogShape
    refine ⟨fun _ => ?_, fun h => by cases h⟩
    simp only [List.length_append, stageMarkers, List.length_cons, List.length_nil]
    omega
  cases c with
  | reset =>
    refine ⟨T.reset, rfl, fun _ => ?_⟩
    unfold LogShape
    exact ⟨fun h => (by cases h), fun _ => Or.inl rfl⟩
  | split ID now =>
    obtain ⟨v, T', h, hS⟩ := split_shape T ID now
    exact ⟨T', by simp [Call.run, h], hS⟩
  | start ID now =>
    refine ⟨{ T with running := true,
                     splits := [NanoSplit.mk (if ID = "" then "start" else tolower ID) now] },
      by simp only [Call.run, start_eq T ID now, Option.map_some'], ?_⟩
    intro _
    unfold LogShape
    exact ⟨fun _ => by simp, fun h => by cases h⟩
  | stop ID now =>
    obtain ⟨v, T', h, hS⟩ := stop_shape T ID now
    exact ⟨T', by simp [Call.run, h], hS⟩
  | benchmark now1 now2 now3 =>
    have hss := start_stop_eq T now1 now2
    have hint :
        interval { T with running := false,
                          splits := [NanoSplit.mk "start" now1, NanoSplit.mk "stop" now2] } now3
          = some (scale T now2 - scale T now1) := by
      simp [interval, front, back, scale]
    have h : T.benchmark now1 now2 now3
        = ((T.start "" now1).bind (fun p => p.2.stop "" now2)).bind
            (fun q => (q.2.interval now3).bind (fun r => some (r, q.2))) := by
      simp only [benchmark, Option.bind_eq_bind, Option.bind_assoc]
      rfl
    refine ⟨{ T with running := false,
                     splits := [NanoSplit.mk "start" now1, NanoSplit.mk "stop" now2] }, ?_, ?_⟩
    · simp only [Call.run, h, hss, Option.some_bind, hint, Option.map_some']
    · exact fun _ => htwo _ _
  | benchmarkValue now1 now2 =>
    have hss := start_stop_eq T now1 now2
    have h : T.benchmarkValue () now1 now2
        = ((T.start "" now1).bind (fun p => p.2.stop "" now2)).bind
            (fun q => some ((), q.2)) := by
      simp only [benchmarkValue, Option.bind_eq_bind, Option.bind_assoc]
      rfl
    refine ⟨{ T with running := false,
                     splits := [NanoSplit.mk "start" now1, NanoSplit.mk "stop" now2] }, ?_, ?_⟩
    · simp only [Call.run, h, hss, Option.some_bind, Option.map_some']
    · exact fun _ => htwo _ _
  | benchmarkID id now1 now2 =>
    exact ⟨{ T with running := true,
                    splits := (if T.running = true then T.splits else [])
                      ++ stageMarkers (id, now1, now2) },
      by simp only [Call.run, benchmarkID_eq T (id, now1, now2), Option.map_some'],
      fun _ => hstage _⟩
  | benchmarkIDValue id now1 now2 =>
    exact ⟨{ T with running := true,
                    splits := (if T.running = true then T.splits else [])
                      ++ stageMarkers (id, now1, now2) },
      by simp only [Call.run, benchmarkIDValue_eq T () (id, now1, now2), Option.map_some'],
      fun _ => hstage _⟩

/-- Every sequence of calls that write to the log returns and keeps the shape
of the log. -/
theorem runCalls_shape (calls : List Call) :
    ∀ T : NanoTimer, T.LogShape → ∃ T', runCalls T calls = some T' ∧ T'.LogShape := by
  induction calls with
  | nil => intro T hS; exact ⟨T, rfl, hS⟩
  | cons c more ih =>
    intro T hS
    obtain ⟨T1, h1, hS1⟩ := Call.run_shape T c
    obtain ⟨T2, h2, hS2⟩ := ih T1 (hS1 hS)
    exact ⟨T2, by simp only [runCalls, h1, Option.some_bind, h2], hS2⟩

/-- The scanning loop of `indexFromSplitID` in terms of the greatest position of
a record of the name. -/
theorem indexFromSplitID.loop_lastIndexNamed (m : String) :
    ∀ (l : List NanoSplit) (item found : Int),
      indexFromSplitID.loop m l item found
        = match lastIndexNamed m l with
          | some i => item + (i : Int)
          | none => found := by
  intro l
  induction l with
  | nil => intro item found; rfl
  | cons s rest ih =>
    intro item found
    simp only [indexFromSplitID.loop, ih, lastIndexNamed]
    cases hrest : lastIndexNamed m rest with
    | some i =>
      simp only
      push_cast
      ring
    | none =>
      by_cases hs : s.name = m
      · simp [hs]
      · simp [hs]

/-- When the greatest position of a record named `m` is `k`, the record at `k`
is named `m` and no later record is. -/
theorem lastIndexNamed_some (m : String) :
    ∀ (l : List NanoSplit) (k : Nat), lastIndexNamed m l = some k →
      (∃ s, l[k]? = some s ∧ s.name = m) ∧
      ∀ (j : Nat) (s : NanoSplit), k < j → l[j]? = some s → s.name ≠ m := by
  have hnone : ∀ l : List NanoSplit, lastIndexNamed m l = none → ∀ s ∈ l, s.name ≠ m := by
    intro l
    induction l with
    | nil => intro _ s hs; cases hs
    | cons x rest ih =>
      intro h s hs
      simp only [lastIndexNamed] at h
      cases hrest : lastIndexNamed m rest with
      | some i => rw [hrest] at h; cases h
      | none =>
        rw [hrest] at h
        by_cases hx : x.name = m
        · simp [hx] at h
        · rcases List.mem_cons.1 hs with h1 | h1
          · rw [h1]; exact hx
          · exact ih hrest s h1
  intro l
  induction l with
  | nil => intro k h; cases h
  | cons x rest ih =>
    intro k h
    simp only [lastIndexNamed] at h
    cases hrest : lastIndexNamed m rest with
    | some i =>
      rw [hrest] at h
      simp only [Option.some.injEq] at h
      subst h
      obtain ⟨hk, hafter⟩ := ih i hrest
      refine ⟨by simpa using hk, ?_⟩
      intro j s hj hget
      obtain ⟨j', rfl⟩ : ∃ j', j = j' + 1 := ⟨j - 1, by omega⟩
      rw [List.getElem?_cons_succ] at hget
      exact hafter j' s (by omega) hget
    | none =>
      rw [hrest] at h
      by_cases hx : x.name = m
      · simp only [hx, if_true, Option.some.injEq] at h
        subst h
        refine ⟨⟨x, by simp, hx⟩, ?_⟩
        intro j s hj hget
        obtain ⟨j', rfl⟩ : ∃ j', j = j' + 1 := ⟨j - 1, by omega⟩
        rw [List.getElem?_cons_succ] at hget
        exact hnone rest hrest s (List.getElem?_mem hget)
      · simp [hx] at h

/-- When no position is the greatest of a record named `m`, no record is named
`m`. -/
theorem lastIndexNamed_none (m : String) :
    ∀ l : List NanoSplit, lastIndexNamed m l = none → ∀ s ∈ l, s.name ≠ m := by
  intro l
  induction l with
  | nil => intro _ s hs; cases hs
  | cons x rest ih =>
    intro h s hs
    simp only [lastIndexNamed] at h
    cases hrest : lastIndexNamed m rest with
    | some i => rw [hrest] at h; cases h
    | none =>
      rw [hrest] at h
      by_cases hx : x.name = m
      · simp [hx] at h
      · rcases List.mem_cons.1 hs with h1 | h1
        · rw [h1]; exact hx
        · exact ih hrest s h1

/-! ## Claims -/

/-- C1: for every timer state and every name `n`, `start(n)` returns, leaves
`running = true` and a log of exactly one record, named by the lower case form
of `n` (or "start" when `n` is empty) and stamped with the clock reading of the
call; the value returned is that record's scaled timestamp, which is what
`time(0)` returns afterwards. The formatting and the timebase are kept. -/
theorem start_spec (T : NanoTimer) (n : String) (now : Int) :
    ∃ (v : ℚ) (T' : NanoTimer), T.start n now = some (v, T') ∧
      T'.running = true ∧
      T'.splits = [NanoSplit.mk (if n = "" then "start" else tolower n) now] ∧
      T'.formatting = T.formatting ∧ T'.timebase = T.timebase ∧
      v = T'.scale now ∧ T'.time 0 = some v := by
  by_cases hn : n = ""
  · subst hn
    refine ⟨scale T now, { T with running := true, splits := [NanoSplit.mk "start" now] }, ?_⟩
    have hs : tolower "start" = "start" := by decide
    simp [start, reset, split, back, front, scale, time, numSplits, hs]
  · refine ⟨scale T now, { T with running := true, splits := [NanoSplit.mk (tolower n) now] }, ?_⟩
    have hne : tolower n ≠ "" := fun h => hn ((tolower_eq_empty n).1 h)
    simp [start, reset, split, back, front, scale, time, numSplits, hn, hne]

/-- C2: on a timer that is not running (whatever its log), `split(name)` and
`stop(name)` each return the zero sentinel and leave the whole state as it was. -/
theorem split_stop_not_running (T : NanoTimer) (n : String) (now : Int)
    (hrun : T.running = false) :
    T.split n now = some (0, T) ∧ T.stop n now = some (0, T) := by
  simp [split, stop, hrun, zero]

/-- C2, at a stopped timer with a log of two records. -/
theorem split_stop_not_running_witness :
    (NanoTimer.mk {} {} false [NanoSplit.mk "start" 1, NanoSplit.mk "stop" 2]).running = false ∧
    (split (NanoTimer.mk {} {} false [NanoSplit.mk "start" 1, NanoSplit.mk "stop" 2]) "Lap" 3
        = some (0, NanoTimer.mk {} {} false [NanoSplit.mk "start" 1, NanoSplit.mk "stop" 2]) ∧
     stop (NanoTimer.mk {} {} false [NanoSplit.mk "start" 1, NanoSplit.mk "stop" 2]) "Lap" 3
        = some (0, NanoTimer.mk {} {} false [NanoSplit.mk "start" 1, NanoSplit.mk "stop" 2])) :=
  ⟨rfl, split_stop_not_running _ "Lap" 3 rfl⟩

/-- C3: on a running timer with log `L`, `split(n)` with a non-empty name `n`
returns, yields the log `L` followed by one record named by the lower case form
of `n` and stamped with the clock reading of the call, keeps `running = true`
(and the formatting and timebase), and returns the new record's scaled
timestamp, which is what `time(-1)` returns afterwards. -/
theorem split_running_spec (T : NanoTimer) (n : String) (now : Int)
    (hrun : T.running = true) (hn : n ≠ "") :
    ∃ (v : ℚ) (T' : NanoTimer), T.split n now = some (v, T') ∧
      T'.splits = T.splits ++ [NanoSplit.mk (tolower n) now] ∧
      T'.running = true ∧ T'.formatting = T.formatting ∧ T'.timebase = T.timebase ∧
      v = T'.scale now ∧ T'.time (-1) = some v := by
  have hne : tolower n ≠ "" := fun h => hn ((tolower_eq_empty n).1 h)
  refine ⟨scale T now, { T with splits := T.splits ++ [NanoSplit.mk (tolower n) now] }, ?_⟩
  refine ⟨?_, rfl, hrun, rfl, rfl, rfl, ?_⟩
  · rw [split_running T n now hrun]
    simp [hne]
  · exact time_neg_one_snoc T T.splits _

/-- C3, at a running timer whose log holds the start record. -/
theorem split_running_spec_witness :
    ((NanoTimer.mk {} {} true [NanoSplit.mk "start" 1]).running = true ∧ "Lap" ≠ "") ∧
    ∃ (v : ℚ) (T' : NanoTimer),
      split (NanoTimer.mk {} {} true [NanoSplit.mk "start" 1]) "Lap" 5 = some (v, T') ∧
      T'.splits = [NanoSplit.mk "start" 1] ++ [NanoSplit.mk (tolower "Lap") 5] ∧
      T'.running = true ∧ T'.formatting = {} ∧ T'.timebase = {} ∧
      v = T'.scale 5 ∧ T'.time (-1) = some v :=
  ⟨⟨rfl, by decide⟩, split_running_spec _ "Lap" 5 rfl (by decide)⟩

/-- C4: on a running timer with log `L`, `stop(n)` returns, yields the log `L`
followed by exactly one record named by the lower case form of `n` (or "stop"
when `n` is empty) and stamped with the clock reading of the call, sets
`running = false` (keeping the formatting and timebase), and returns the new
record's scaled timestamp, which is what `time(-1)` returns afterwards. -/
theorem stop_running_spec (T : NanoTimer) (n : String) (now : Int)
    (hrun : T.running = true) :
    ∃ (v : ℚ) (T' : NanoTimer), T.stop n now = some (v, T') ∧
      T'.splits = T.splits ++ [NanoSplit.mk (if n = "" then "stop" else tolower n) now] ∧
      T'.running = false ∧ T'.formatting = T.formatting ∧ T'.timebase = T.timebase ∧
      v = T'.scale now ∧ T'.time (-1) = some v := by
  refine ⟨scale T now, { T with running := false, splits := T.splits ++
      [NanoSplit.mk (if n = "" then "stop" else tolower n) now] }, ?_⟩
  refine ⟨?_, rfl, rfl, rfl, rfl, rfl, ?_⟩
  · by_cases hn : n = ""
    · subst hn
      have hs : tolower "stop" = "stop" := by decide
      simp [stop, hrun, split_running, hs, back, scale]
    · have hne : tolower n ≠ "" := fun h => hn ((tolower_eq_empty n).1 h)
      simp [stop, hrun, split_running, hn, hne, back, scale]
  · exact time_neg_one_snoc { T with running := false } T.splits _

/-- C4, at a running timer whose log holds the start record. -/
theorem stop_running_spec_witness :
    (NanoTimer.mk {} {} true [NanoSplit.mk "start" 1]).running = true ∧
    ∃ (v : ℚ) (T' : NanoTimer),
      stop (NanoTimer.mk {} {} true [NanoSplit.mk "start" 1]) "" 9 = some (v, T') ∧
      T'.splits = [NanoSplit.mk "start" 1] ++ [NanoSplit.mk (if "" = "" then "stop" else tolower "") 9] ∧
      T'.running = false ∧ T'.formatting = {} ∧ T'.timebase = {} ∧
      v = T'.scale 9 ∧ T'.time (-1) = some v :=
  ⟨rfl, stop_running_spec _ "" 9 rfl⟩

/-- C5: for every timer state, `reset()` leaves `running = false` and an empty
log, and changes neither the formatting configuration nor the timebase. -/
theorem reset_spec (T : NanoTimer) :
    T.reset.running = false ∧ T.reset.splits = [] ∧
      T.reset.formatting = T.formatting ∧ T.reset.timebase = T.timebase :=
  ⟨rfl, rfl, rfl, rfl⟩

/-- C6: for every timer state, `start()` followed by `stop()` (both without a
name) both return and produce a log of exactly the two records "start" and
"stop", in that order and stamped with the two clock readings, with
`running = false`; and when the timebase factor is one of the six factors the
class can set and the reading taken by `stop` is not earlier than the one taken
by `start`, `interval()` returns a value `>= 0`. -/
theorem start_stop_spec (T : NanoTimer) (t1 t2 tq : Int) :
    ∃ (v1 : ℚ) (T1 : NanoTimer) (v2 : ℚ) (T2 : NanoTimer),
      T.start "" t1 = some (v1, T1) ∧ T1.stop "" t2 = some (v2, T2) ∧
      T2.splits = [NanoSplit.mk "start" t1, NanoSplit.mk "stop" t2] ∧ T2.running = false ∧
      (T.timebase.Valid → t1 ≤ t2 → ∃ d, T2.interval tq = some d ∧ 0 ≤ d) := by
  have hs : tolower "start" = "start" := by decide
  have hp : tolower "stop" = "stop" := by decide
  refine ⟨scale T t1, { T with running := true, splits := [NanoSplit.mk "start" t1] },
    scale T t2,
    { T with running := false, splits := [NanoSplit.mk "start" t1, NanoSplit.mk "stop" t2] },
    ?_, ?_, rfl, rfl, ?_⟩
  · simp [start, reset, split, back, front, scale, hs]
  · simp [stop, split, back, scale, hp]
  · intro hv hle
    refine ⟨scale T t2 - scale T t1, ?_, ?_⟩
    · simp [interval, front, back, scale]
    · exact sub_nonneg.2 (scale_mono T t1 t2 (factor_pos_of_valid hv) hle)

/-- C6, at a freshly constructed timer with clock readings 10 and 25. -/
theorem start_stop_spec_witness :
    ∃ (v1 : ℚ) (T1 : NanoTimer) (v2 : ℚ) (T2 : NanoTimer),
      start {} "" 10 = some (v1, T1) ∧ T1.stop "" 25 = some (v2, T2) ∧
      T2.splits = [NanoSplit.mk "start" 10, NanoSplit.mk "stop" 25] ∧ T2.running = false ∧
      ∃ d, T2.interval 40 = some d ∧ 0 ≤ d := by
  obtain ⟨v1, T1, v2, T2, h1, h2, h3, h4, h5⟩ := start_stop_spec {} 10 25 40
  exact ⟨v1, T1, v2, T2, h1, h2, h3, h4, h5 (Or.inl rfl) (by decide)⟩

/-- C7: for every log with `count` records and every integer index `i`,
`time(i)` returns: 0 when `count = 0`; the scaled timestamp of record `i` when
`0 <= i < count`; the scaled timestamp of record `i + count` when
`-count <= i < 0`; and 0 for any other index. In particular, on a non-empty log
`time(0)` is the first record's scaled timestamp and `time(-1) = time(count-1)`. -/
theorem time_spec (T : NanoTimer) (i : Int) :
    (T.numSplits = 0 → T.time i = some 0) ∧
    (0 ≤ i → i < T.numSplits →
      ∃ s, T.splits[i.toNat]? = some s ∧ T.time i = some (T.scale s.time)) ∧
    (-T.numSplits ≤ i → i < 0 →
      ∃ s, T.splits[(i + T.numSplits).toNat]? = some s ∧ T.time i = some (T.scale s.time)) ∧
    (T.numSplits ≠ 0 → i < -T.numSplits ∨ T.numSplits ≤ i → T.time i = some 0) ∧
    (T.numSplits ≠ 0 →
      (∃ s, T.splits.head? = some s ∧ T.time 0 = some (T.scale s.time)) ∧
      T.time (-1) = T.time (T.numSplits - 1)) := by
  have key : ∀ j : Int, 0 ≤ j → j < T.numSplits →
      ∃ s, T.splits[j.toNat]? = some s ∧ T.time j = some (T.scale s.time) := by
    intro j h0 hlt
    have hne : T.numSplits ≠ 0 := by omega
    have hlt' : j.toNat < T.splits.length := by
      unfold numSplits at hlt; omega
    obtain ⟨s, hs⟩ := getElem?_of_lt T.splits j.toNat hlt'
    refine ⟨s, hs, ?_⟩
    by_cases hj : j = 0
    · subst hj
      simp only [time, if_neg hne, if_true, front, List.head?_eq_getElem?]
      simp at hs
      simp [hs]
    · have hj1 : j ≠ -1 := by omega
      have hnl : ¬ j < 0 := by omega
      simp only [time, if_neg hne, if_neg hj, if_neg hj1, if_neg hnl, nth]
      have hb : j + 0 * T.numSplits > -1 ∧ j + 0 * T.numSplits < T.numSplits := by
        constructor <;> omega
      rw [if_pos hb]
      have hz : j + 0 * T.numSplits = j := by omega
      rw [hz, if_pos h0, hs]
      rfl
  have keyneg : ∀ j : Int, -T.numSplits ≤ j → j < 0 →
      ∃ s, T.splits[(j + T.numSplits).toNat]? = some s ∧ T.time j = some (T.scale s.time) := by
    intro j hlo hneg
    have hne : T.numSplits ≠ 0 := by omega
    have hlt' : (j + T.numSplits).toNat < T.splits.length := by
      unfold numSplits at hlo ⊢; omega
    obtain ⟨s, hs⟩ := getElem?_of_lt T.splits _ hlt'
    refine ⟨s, hs, ?_⟩
    have hj : j ≠ 0 := by omega
    by_cases hj1 : j = -1
    · subst hj1
      simp only [time, if_neg hne, if_neg hj, if_true, back, List.getLast?_eq_getElem?]
      have hidx : (-1 + T.numSplits).toNat = T.splits.length - 1 := by
        unfold numSplits; omega
      rw [hidx] at hs
      rw [hs]
      rfl
    · simp only [time, if_neg hne, if_neg hj, if_neg hj1, if_pos hneg, nth]
      have hb : j + 1 * T.numSplits > -1 ∧ j + 1 * T.numSplits < T.numSplits := by
        constructor <;> omega
      rw [if_pos hb]
      have hz : j + 1 * T.numSplits = j + T.numSplits := by omega
      have h0 : 0 ≤ j + T.numSplits := by omega
      rw [hz, if_pos h0, hs]
      rfl
  refine ⟨?_, key i, keyneg i, ?_, ?_⟩
  · intro h0
    simp [time, h0, zero]
  · intro hne hout
    have hj : i ≠ 0 := by
      unfold numSplits at hne hout; omega
    have hj1 : i ≠ -1 := by
      unfold numSplits at hne hout; omega
    simp only [time, if_neg hne, if_neg hj, if_neg hj1]
    have hb : ¬ (i + (if i < 0 then 1 else 0) * T.numSplits > -1 ∧
        i + (if i < 0 then 1 else 0) * T.numSplits < T.numSplits) := by
      split_ifs <;> omega
    rw [if_neg hb]
    rfl
  · intro hne
    have hpos : 0 < T.numSplits := by
      unfold numSplits at hne ⊢; omega
    refine ⟨?_, ?_⟩
    · obtain ⟨s, hs, ht⟩ := key 0 (le_refl 0) hpos
      refine ⟨s, ?_, ht⟩
      rw [List.head?_eq_getElem?]
      simpa using hs
    · obtain ⟨s, hs, ht⟩ := keyneg (-1) (by omega) (by omega)
      obtain ⟨s', hs', ht'⟩ := key (T.numSplits - 1) (by omega) (by omega)
      have hidx : (-1 + T.numSplits).toNat = (T.numSplits - 1).toNat := by
        rw [show (-1 + T.numSplits) = T.numSplits - 1 by omega]
      rw [hidx, hs'] at hs
      cases hs
      rw [ht, ht']

/-- C7, at a log of three records: the indices 1 and -2 both read the middle
record, and `time(-1) = time(2)`. -/
theorem time_spec_witness :
    (∃ s, (NanoTimer.mk {} {} true [NanoSplit.mk "start" 10, NanoSplit.mk "lap" 20,
        NanoSplit.mk "2" 30]).splits[(1 : Int).toNat]? = some s ∧
      time (NanoTimer.mk {} {} true [NanoSplit.mk "start" 10, NanoSplit.mk "lap" 20,
        NanoSplit.mk "2" 30]) 1
        = some (scale (NanoTimer.mk {} {} true [NanoSplit.mk "start" 10, NanoSplit.mk "lap" 20,
            NanoSplit.mk "2" 30]) s.time)) ∧
    time (NanoTimer.mk {} {} true [NanoSplit.mk "start" 10, NanoSplit.mk "lap" 20,
        NanoSplit.mk "2" 30]) (-1)
      = time (NanoTimer.mk {} {} true [NanoSplit.mk "start" 10, NanoSplit.mk "lap" 20,
        NanoSplit.mk "2" 30]) (3 - 1) :=
  ⟨(time_spec (NanoTimer.mk {} {} true [NanoSplit.mk "start" 10, NanoSplit.mk "lap" 20,
        NanoSplit.mk "2" 30]) 1).2.1 (by decide) (by decide),
   ((time_spec (NanoTimer.mk {} {} true [NanoSplit.mk "start" 10, NanoSplit.mk "lap" 20,
        NanoSplit.mk "2" 30]) 1).2.2.2.2 (by decide)).2⟩

/-- C8: the name resolver at the log `a, b, a` (reached by `start("a")`,
`split("b")`, `split("a")`) and the name "a", which is the first record's name:
the resolver returns index 2, not 0, and `time("a")` is the scaled timestamp of
record 2 while `time(0)` is that of record 0. Likewise at the log `x, start`
the name "start" resolves to index 1. -/
theorem indexFromSplitID_first_shadowed :
    (∃ (v1 v2 v3 : ℚ) (T1 T2 : NanoTimer),
      start {} "a" 10 = some (v1, T1) ∧ T1.split "b" 20 = some (v2, T2) ∧
      T2.split "a" 30 = some (v3, NanoTimer.mk {} {} true
        [NanoSplit.mk "a" 10, NanoSplit.mk "b" 20, NanoSplit.mk "a" 30])) ∧
    indexFromSplitID (NanoTimer.mk {} {} true
        [NanoSplit.mk "a" 10, NanoSplit.mk "b" 20, NanoSplit.mk "a" 30]) "a" = some 2 ∧
    timeID (NanoTimer.mk {} {} true
        [NanoSplit.mk "a" 10, NanoSplit.mk "b" 20, NanoSplit.mk "a" 30]) "a"
      = some (30 / 1000000000) ∧
    time (NanoTimer.mk {} {} true
        [NanoSplit.mk "a" 10, NanoSplit.mk "b" 20, NanoSplit.mk "a" 30]) 0
      = some (10 / 1000000000) ∧
    indexFromSplitID (NanoTimer.mk {} {} true
        [NanoSplit.mk "x" 10, NanoSplit.mk "start" 20]) "start" = some 1 := by
  refine ⟨?_, by decide, ?_, ?_, by decide⟩
  · refine ⟨scale {} 10, scale {} 20, scale {} 30,
      NanoTimer.mk {} {} true [NanoSplit.mk "a" 10],
      NanoTimer.mk {} {} true [NanoSplit.mk "a" 10, NanoSplit.mk "b" 20], ?_, ?_, ?_⟩
    · have h : tolower "a" = "a" := by decide
      simp [start, reset, split, back, front, scale, h]
    · have h : tolower "b" = "b" := by decide
      simp [split, back, scale, h]
    · have h : tolower "a" = "a" := by decide
      simp [split, back, scale, h]
  · have h : indexFromSplitID (NanoTimer.mk {} {} true
        [NanoSplit.mk "a" 10, NanoSplit.mk "b" 20, NanoSplit.mk "a" 30]) "a" = some 2 := by
      decide
    unfold timeID
    rw [h]
    simp [numSplits, time, nth, scale, Timebase.factor, RCH_NANOTIMER_NANOSECONDS]
    norm_num
  · simp [numSplits, time, front, scale, Timebase.factor, RCH_NANOTIMER_NANOSECONDS]
    norm_num

/-- C9: the name resolver at the log `a, stop, c` (reached by `start("a")`,
`split("stop")`, `split("c")`) and the name "stop", which is neither "start",
"begin" nor the first record's name: the resolver returns index 1, not the last
index 2, and `time("stop")` is the scaled timestamp of record 1 while
`time(-1)` is that of record 2. -/
theorem indexFromSplitID_stop_shadowed :
    (∃ (v1 v2 v3 : ℚ) (T1 T2 : NanoTimer),
      start {} "a" 10 = some (v1, T1) ∧ T1.split "stop" 20 = some (v2, T2) ∧
      T2.split "c" 30 = some (v3, NanoTimer.mk {} {} true
        [NanoSplit.mk "a" 10, NanoSplit.mk "stop" 20, NanoSplit.mk "c" 30])) ∧
    indexFromSplitID (NanoTimer.mk {} {} true
        [NanoSplit.mk "a" 10, NanoSplit.mk "stop" 20, NanoSplit.mk "c" 30]) "stop" = some 1 ∧
    timeID (NanoTimer.mk {} {} true
        [NanoSplit.mk "a" 10, NanoSplit.mk "stop" 20, NanoSplit.mk "c" 30]) "stop"
      = some (20 / 1000000000) ∧
    time (NanoTimer.mk {} {} true
        [NanoSplit.mk "a" 10, NanoSplit.mk "stop" 20, NanoSplit.mk "c" 30]) (-1)
      = some (30 / 1000000000) := by
  refine ⟨?_, by decide, ?_, ?_⟩
  · refine ⟨scale {} 10, scale {} 20, scale {} 30,
      NanoTimer.mk {} {} true [NanoSplit.mk "a" 10],
      NanoTimer.mk {} {} true [NanoSplit.mk "a" 10, NanoSplit.mk "stop" 20], ?_, ?_, ?_⟩
    · have h : tolower "a" = "a" := by decide
      simp [start, reset, split, back, front, scale, h]
    · have h : tolower "stop" = "stop" := by decide
      simp [split, back, scale, h]
    · have h : tolower "c" = "c" := by decide
      simp [split, back, scale, h]
  · have h : indexFromSplitID (NanoTimer.mk {} {} true
        [NanoSplit.mk "a" 10, NanoSplit.mk "stop" 20, NanoSplit.mk "c" 30]) "stop" = some 1 := by
      decide
    unfold timeID
    rw [h]
    simp [numSplits, time, nth, scale, Timebase.factor, RCH_NANOTIMER_NANOSECONDS]
    norm_num
  · simp [numSplits, time, back, scale, Timebase.factor, RCH_NANOTIMER_NANOSECONDS]
    norm_num

/-- C10: for every log and every name whose lower case form `m` is none of
"start", "begin", "stop", "end", the first record's name or the last record's
name, the name resolver returns, and its result is either `-1`, when no record
is named `m` (and then `time(name)` returns 0), or the greatest index of a
record named `m`. -/
theorem indexFromSplitID_scan (T : NanoTimer) (n : String)
    (h1 : tolower n ≠ "start") (h2 : tolower n ≠ "begin")
    (h3 : tolower n ≠ "stop") (h4 : tolower n ≠ "end")
    (hfirst : T.front.map NanoSplit.name ≠ some (tolower n))
    (hlast : T.back.map NanoSplit.name ≠ some (tolower n)) :
    ∃ r : Int, T.indexFromSplitID n = some r ∧
      ((r = -1 ∧ (∀ s ∈ T.splits, s.name ≠ tolower n) ∧ T.timeID n = some 0) ∨
       (∃ k : Nat, r = (k : Int) ∧ (∃ s, T.splits[k]? = some s ∧ s.name = tolower n) ∧
          ∀ (j : Nat) (s : NanoSplit), k < j → T.splits[j]? = some s → s.name ≠ tolower n)) := by
  by_cases h0 : T.numSplits = 0
  · refine ⟨-1, by simp [indexFromSplitID, h0], Or.inl ⟨rfl, ?_, by simp [timeID, h0, zero]⟩⟩
    have hnil : T.splits = [] := by
      unfold numSplits at h0
      exact List.length_eq_zero.1 (by omega)
    simp [hnil]
  · have hlen : 0 < T.splits.length := by
      unfold numSplits at h0; omega
    obtain ⟨f, hf⟩ : ∃ f, T.front = some f := by
      obtain ⟨f, hf⟩ := getElem?_of_lt T.splits 0 hlen
      exact ⟨f, by rw [front, List.head?_eq_getElem?, hf]⟩
    obtain ⟨b, hb⟩ : ∃ b, T.back = some b := by
      obtain ⟨b, hb⟩ := getElem?_of_lt T.splits (T.splits.length - 1) (by omega)
      exact ⟨b, by rw [back, List.getLast?_eq_getElem?, hb]⟩
    have hfn : tolower n ≠ f.name := by
      intro h; apply hfirst; rw [hf, h]; rfl
    have hbn : tolower n ≠ b.name := by
      intro h; apply hlast; rw [hb, h]; rfl
    have hidx : T.indexFromSplitID n = some (indexFromSplitID.loop (tolower n) T.splits 0 (-1)) := by
      simp [indexFromSplitID, h0, hf, hb, h1, h2, h3, h4, hfn, hbn]
    refine ⟨_, hidx, ?_⟩
    rcases indexFromSplitID.loop_spec (tolower n) T.splits 0 (-1) with ⟨hr, hno⟩ | ⟨k, hr, hk, hafter⟩
    · left
      refine ⟨hr, hno, ?_⟩
      simp [timeID, h0, hidx, hr, zero]
    · right
      exact ⟨k, by rw [hr]; simp, hk, hafter⟩

/-- C10, at the log `start, lap, x, lap, stop` and the name "LAP": the resolver
returns the later of the two records named "lap". -/
theorem indexFromSplitID_scan_witness :
    indexFromSplitID (NanoTimer.mk {} {} false [NanoSplit.mk "start" 1, NanoSplit.mk "lap" 2,
        NanoSplit.mk "x" 3, NanoSplit.mk "lap" 4, NanoSplit.mk "stop" 5]) "LAP" = some 3 ∧
    ∃ r : Int, indexFromSplitID (NanoTimer.mk {} {} false [NanoSplit.mk "start" 1,
        NanoSplit.mk "lap" 2, NanoSplit.mk "x" 3, NanoSplit.mk "lap" 4,
        NanoSplit.mk "stop" 5]) "LAP" = some r ∧
      ((r = -1 ∧ (∀ s ∈ (NanoTimer.mk {} {} false [NanoSplit.mk "start" 1, NanoSplit.mk "lap" 2,
            NanoSplit.mk "x" 3, NanoSplit.mk "lap" 4, NanoSplit.mk "stop" 5]).splits,
            s.name ≠ tolower "LAP") ∧
          timeID (NanoTimer.mk {} {} false [NanoSplit.mk "start" 1, NanoSplit.mk "lap" 2,
            NanoSplit.mk "x" 3, NanoSplit.mk "lap" 4, NanoSplit.mk "stop" 5]) "LAP" = some 0) ∨
       (∃ k : Nat, r = (k : Int) ∧
          (∃ s, (NanoTimer.mk {} {} false [NanoSplit.mk "start" 1, NanoSplit.mk "lap" 2,
            NanoSplit.mk "x" 3, NanoSplit.mk "lap" 4, NanoSplit.mk "stop" 5]).splits[k]? = some s ∧
            s.name = tolower "LAP") ∧
          ∀ (j : Nat) (s : NanoSplit), k < j →
            (NanoTimer.mk {} {} false [NanoSplit.mk "start" 1, NanoSplit.mk "lap" 2,
              NanoSplit.mk "x" 3, NanoSplit.mk "lap" 4, NanoSplit.mk "stop" 5]).splits[j]? = some s →
            s.name ≠ tolower "LAP")) :=
  ⟨by decide,
   indexFromSplitID_scan _ "LAP" (by decide) (by decide) (by decide) (by decide)
     (by decide) (by decide)⟩

/-- C11: on a non-empty log `interval()` returns `scale(now) - scale(first)`
when the timer is running, `now` being the clock reading taken by the call, and
`scale(last) - scale(first)` when it is not running. -/
theorem interval_spec (T : NanoTimer) (now : Int) (hne : T.splits ≠ []) :
    ∃ first last, T.splits.head? = some first ∧ T.splits.getLast? = some last ∧
      T.interval now = some (if T.running = true then T.scale now - T.scale first.time
        else T.scale last.time - T.scale first.time) := by
  have hn : T.numSplits ≠ 0 := by
    unfold numSplits
    intro h
    exact hne (List.length_eq_zero.1 (by omega))
  obtain ⟨f, hf, _⟩ := front_of_ne T hn
  obtain ⟨b, hb, _⟩ := back_of_ne T hn
  exact ⟨f, b, hf, hb, interval_of_front_back T now f b hf hb⟩

/-- C11, at a running timer with the log `start, lap` and the clock reading 50. -/
theorem interval_spec_witness :
    (NanoTimer.mk {} {} true [NanoSplit.mk "start" 10, NanoSplit.mk "lap" 20]).splits ≠ [] ∧
    ∃ first last,
      (NanoTimer.mk {} {} true [NanoSplit.mk "start" 10, NanoSplit.mk "lap" 20]).splits.head?
        = some first ∧
      (NanoTimer.mk {} {} true [NanoSplit.mk "start" 10, NanoSplit.mk "lap" 20]).splits.getLast?
        = some last ∧
      interval (NanoTimer.mk {} {} true [NanoSplit.mk "start" 10, NanoSplit.mk "lap" 20]) 50
        = some (if (NanoTimer.mk {} {} true [NanoSplit.mk "start" 10,
              NanoSplit.mk "lap" 20]).running = true
          then scale (NanoTimer.mk {} {} true [NanoSplit.mk "start" 10, NanoSplit.mk "lap" 20]) 50
            - scale (NanoTimer.mk {} {} true [NanoSplit.mk "start" 10, NanoSplit.mk "lap" 20])
                first.time
          else scale (NanoTimer.mk {} {} true [NanoSplit.mk "start" 10, NanoSplit.mk "lap" 20])
                last.time
            - scale (NanoTimer.mk {} {} true [NanoSplit.mk "start" 10, NanoSplit.mk "lap" 20])
                first.time) :=
  ⟨by decide, interval_spec _ 50 (by decide)⟩

/-- C12: `interval()` on an empty log, that of a freshly constructed timer or of
any timer right after `reset()`: the call reads `splits.front()` of an empty
vector and returns no value, while `interval(-1)`, which guards the empty log,
returns the zero sentinel. -/
theorem interval_empty_log :
    (∀ now : Int, interval {} now = none) ∧
    (∀ (T : NanoTimer) (now : Int), interval T.reset now = none) ∧
    (∀ now : Int, intervalIndex {} (-1) now = some 0) :=
  ⟨fun _ => rfl, fun _ _ => rfl, fun _ => rfl⟩

/-- C13: for every timer and every integer index `i`, `interval(i)` returns 0
when the log is empty or `i = 0`; on a non-empty log `interval(-1)` is
`interval()`; and for any other index it returns `time(i) - time(0)` when
`time(i) > 0` and 0 when `time(i)` is 0 (or below). -/
theorem intervalIndex_spec (T : NanoTimer) (i now : Int) :
    (T.numSplits = 0 ∨ i = 0 → T.intervalIndex i now = some 0) ∧
    (T.numSplits ≠ 0 → T.intervalIndex (-1) now = T.interval now) ∧
    (T.numSplits ≠ 0 → i ≠ 0 → i ≠ -1 →
      ∃ t t0, T.time i = some t ∧ T.time 0 = some t0 ∧
        T.intervalIndex i now = some (if 0 < t then t - t0 else 0)) := by
  refine ⟨?_, ?_, ?_⟩
  · intro h
    simp [intervalIndex, h, zero]
  · intro hne
    simp [intervalIndex, hne]
  · intro hne h0 h1
    obtain ⟨t, ht⟩ := time_total T i
    obtain ⟨f, hf, hf0⟩ := front_of_ne T hne
    have ht0 : T.time 0 = some (T.scale f.time) := by
      simpa using time_natIndex T 0 f hf0
    refine ⟨t, T.scale f.time, ht, ht0, ?_⟩
    by_cases hpos : 0 < t
    · simp [intervalIndex, hne, h0, h1, ht, hpos, hf]
    · simp [intervalIndex, hne, h0, h1, ht, hpos, zero]

/-- C13, at the log `start, lap, stop` of a stopped timer and the index 1. -/
theorem intervalIndex_spec_witness :
    ∃ t t0,
      time (NanoTimer.mk {} {} false [NanoSplit.mk "start" 10, NanoSplit.mk "lap" 20,
        NanoSplit.mk "stop" 30]) 1 = some t ∧
      time (NanoTimer.mk {} {} false [NanoSplit.mk "start" 10, NanoSplit.mk "lap" 20,
        NanoSplit.mk "stop" 30]) 0 = some t0 ∧
      intervalIndex (NanoTimer.mk {} {} false [NanoSplit.mk "start" 10, NanoSplit.mk "lap" 20,
        NanoSplit.mk "stop" 30]) 1 40 = some (if 0 < t then t - t0 else 0) :=
  (intervalIndex_spec (NanoTimer.mk {} {} false [NanoSplit.mk "start" 10, NanoSplit.mk "lap" 20,
        NanoSplit.mk "stop" 30]) 1 40).2.2 (by decide) (by decide) (by decide)

/-- C14, as stated, fails: on the running timer with the log `start, lap` the
indices 0 and 1 have the positions 0 and `count-1`, yet `interval(0, 1)` is the
difference of the two records while `interval()` measures up to the clock
reading 50; and on the stopped timer with the log `start, stop` the indices
-2 and -2 both have the position 0, yet `interval(-2, -2)` is 0 while
`interval()` is not. -/
theorem intervalIndices_boundary_counterexample :
    intervalIndices (NanoTimer.mk {} {} true [NanoSplit.mk "start" 10, NanoSplit.mk "lap" 20])
      0 1 50 = some (10 / 1000000000) ∧
    interval (NanoTimer.mk {} {} true [NanoSplit.mk "start" 10, NanoSplit.mk "lap" 20]) 50
      = some (40 / 1000000000) ∧
    intervalIndices (NanoTimer.mk {} {} true [NanoSplit.mk "start" 10, NanoSplit.mk "lap" 20])
      0 1 50
      ≠ interval (NanoTimer.mk {} {} true [NanoSplit.mk "start" 10, NanoSplit.mk "lap" 20]) 50 ∧
    intervalIndices (NanoTimer.mk {} {} false [NanoSplit.mk "start" 10, NanoSplit.mk "stop" 20])
      (-2) (-2) 50 = some 0 ∧
    interval (NanoTimer.mk {} {} false [NanoSplit.mk "start" 10, NanoSplit.mk "stop" 20]) 50
      = some (10 / 1000000000) ∧
    intervalIndices (NanoTimer.mk {} {} false [NanoSplit.mk "start" 10, NanoSplit.mk "stop" 20])
      (-2) (-2) 50
      ≠ interval (NanoTimer.mk {} {} false [NanoSplit.mk "start" 10, NanoSplit.mk "stop" 20]) 50 := by
  have e1 : intervalIndices (NanoTimer.mk {} {} true [NanoSplit.mk "start" 10,
      NanoSplit.mk "lap" 20]) 0 1 50 = some (10 / 1000000000) := by
    simp [intervalIndices, numSplits, time, nth, front, scale, Timebase.factor,
      RCH_NANOTIMER_NANOSECONDS]
    norm_num
  have e2 : interval (NanoTimer.mk {} {} true [NanoSplit.mk "start" 10,
      NanoSplit.mk "lap" 20]) 50 = some (40 / 1000000000) := by
    simp [interval, front, back, scale, Timebase.factor, RCH_NANOTIMER_NANOSECONDS]
    norm_num
  have e3 : intervalIndices (NanoTimer.mk {} {} false [NanoSplit.mk "start" 10,
      NanoSplit.mk "stop" 20]) (-2) (-2) 50 = some 0 := by
    simp [intervalIndices, numSplits, time, front, scale, Timebase.factor,
      RCH_NANOTIMER_NANOSECONDS]
  have e4 : interval (NanoTimer.mk {} {} false [NanoSplit.mk "start" 10,
      NanoSplit.mk "stop" 20]) 50 = some (10 / 1000000000) := by
    simp [interval, front, back, scale, Timebase.factor, RCH_NANOTIMER_NANOSECONDS]
    norm_num
  refine ⟨e1, e2, ?_, e3, e4, ?_⟩
  · rw [e1, e2]; norm_num
  · rw [e3, e4]; norm_num

/-- C14, amended: on a non-empty log of `count` records `interval()` returns a
value, and `interval(a, b)` returns the same value for all `a`, `b` that are
each 0 or -1; when the timer is not running it also does so for all `a`, `b`
whose positions (`a + count` when `a < 0`, else `a`; likewise `b`) are 0 for
one and `count-1` for the other. -/
theorem intervalIndices_boundary (T : NanoTimer) (a b now : Int) (hne : T.numSplits ≠ 0) :
    ∃ v, T.interval now = some v ∧
      ((a = 0 ∨ a = -1) → (b = 0 ∨ b = -1) → T.intervalIndices a b now = some v) ∧
      (T.running = false →
        ((if a < 0 then a + T.numSplits else a) = 0 ∧
            (if b < 0 then b + T.numSplits else b) = T.numSplits - 1) ∨
          ((if a < 0 then a + T.numSplits else a) = T.numSplits - 1 ∧
            (if b < 0 then b + T.numSplits else b) = 0) →
        T.intervalIndices a b now = some v) := by
  obtain ⟨f, hf, hf0⟩ := front_of_ne T hne
  obtain ⟨l, hl, hl0⟩ := back_of_ne T hne
  have hint := interval_of_front_back T now f l hf hl
  refine ⟨_, hint, ?_, ?_⟩
  · intro ha hb
    rw [intervalIndices_filter T a b now hne ⟨by tauto, by tauto⟩, hint]
  · intro hrun hpos
    by_cases hflt : (a = 0 ∨ a = -1 ∨ a ≥ T.numSplits) ∧ (b = 0 ∨ b = -1 ∨ b ≥ T.numSplits)
    · rw [intervalIndices_filter T a b now hne hflt, hint]
    · have hlen : 0 < T.splits.length := by
        unfold numSplits at hne; omega
      have hc : T.numSplits - 1 = ((T.splits.length - 1 : Nat) : Int) := by
        unfold numSplits; omega
      rw [hc] at hpos
      have hval : some (T.scale l.time - T.scale f.time)
          = some (if T.running = true then T.scale now - T.scale f.time
              else T.scale l.time - T.scale f.time) := by
        simp [hrun]
      rcases hpos with ⟨hp, hq⟩ | ⟨hp, hq⟩
      · rw [← hval]
        refine intervalIndices_inner T a b now 0 (T.splits.length - 1) l f hflt
          (by simpa using hp) hq ?_ ?_
        · simpa using hl0
        · simpa using hf0
      · rw [← hval]
        refine intervalIndices_inner T a b now (T.splits.length - 1) 0 l f hflt
          hp (by simpa using hq) ?_ ?_
        · simpa using hl0
        · simpa using hf0

/-- C14, amended, at the stopped timer with the log `start, lap, stop` and the
indices 0 and 2 (the positions 0 and `count-1`). -/
theorem intervalIndices_boundary_witness :
    ∃ v, interval (NanoTimer.mk {} {} false [NanoSplit.mk "start" 10, NanoSplit.mk "lap" 20,
        NanoSplit.mk "stop" 30]) 50 = some v ∧
      intervalIndices (NanoTimer.mk {} {} false [NanoSplit.mk "start" 10, NanoSplit.mk "lap" 20,
        NanoSplit.mk "stop" 30]) 0 2 50 = some v := by
  obtain ⟨v, h1, _, h3⟩ := intervalIndices_boundary (NanoTimer.mk {} {} false
    [NanoSplit.mk "start" 10, NanoSplit.mk "lap" 20, NanoSplit.mk "stop" 30]) 0 2 50 (by decide)
  exact ⟨v, h1, h3 rfl (by decide)⟩

/-- C15, as stated, fails: on the stopped timer with the log `start, stop` the
index 5 has a position outside `[0, count)`, yet `interval(5, 0)` is
`interval()`, which is not 0. -/
theorem intervalIndices_out_of_range_counterexample :
    ¬ ((0 : Int) ≤ (if (5 : Int) < 0 then 5 + numSplits (NanoTimer.mk {} {} false
          [NanoSplit.mk "start" 10, NanoSplit.mk "stop" 20]) else 5) ∧
        (if (5 : Int) < 0 then 5 + numSplits (NanoTimer.mk {} {} false
          [NanoSplit.mk "start" 10, NanoSplit.mk "stop" 20]) else 5)
          < numSplits (NanoTimer.mk {} {} false
              [NanoSplit.mk "start" 10, NanoSplit.mk "stop" 20])) ∧
    intervalIndices (NanoTimer.mk {} {} false [NanoSplit.mk "start" 10, NanoSplit.mk "stop" 20])
      5 0 50 = some (10 / 1000000000) ∧
    intervalIndices (NanoTimer.mk {} {} false [NanoSplit.mk "start" 10, NanoSplit.mk "stop" 20])
      5 0 50 ≠ some 0 := by
  have e1 : intervalIndices (NanoTimer.mk {} {} false [NanoSplit.mk "start" 10,
      NanoSplit.mk "stop" 20]) 5 0 50 = some (10 / 1000000000) := by
    simp [intervalIndices, interval, numSplits, front, back, scale, Timebase.factor,
      RCH_NANOTIMER_NANOSECONDS]
    norm_num
  refine ⟨by decide, e1, ?_⟩
  rw [e1]; norm_num

/-- C15, amended: on a non-empty log of `count` records, for all `a`, `b` such
that at least one of the positions (`a + count` when `a < 0`, else `a`;
likewise `b`) lies outside `[0, count)`, `interval(a, b)` returns 0 unless
both `a` and `b` are 0, -1 or at least `count`; in that case it returns what
`interval()` returns. -/
theorem intervalIndices_out_of_range (T : NanoTimer) (a b now : Int) (hne : T.numSplits ≠ 0)
    (hout : ¬ (0 ≤ (if a < 0 then a + T.numSplits else a) ∧
          (if a < 0 then a + T.numSplits else a) < T.numSplits) ∨
        ¬ (0 ≤ (if b < 0 then b + T.numSplits else b) ∧
          (if b < 0 then b + T.numSplits else b) < T.numSplits)) :
    (¬ ((a = 0 ∨ a = -1 ∨ a ≥ T.numSplits) ∧ (b = 0 ∨ b = -1 ∨ b ≥ T.numSplits)) →
      T.intervalIndices a b now = some 0) ∧
    ((a = 0 ∨ a = -1 ∨ a ≥ T.numSplits) ∧ (b = 0 ∨ b = -1 ∨ b ≥ T.numSplits) →
      ∃ v, T.interval now = some v ∧ T.intervalIndices a b now = some v) := by
  refine ⟨?_, ?_⟩
  · intro hflt
    refine intervalIndices_outside T a b now hflt ?_
    rintro ⟨h1, h2, h3, h4⟩
    rcases hout with h | h
    · exact h ⟨by omega, h2⟩
    · exact h ⟨by omega, h4⟩
  · intro hflt
    obtain ⟨v, hv⟩ := interval_total T now hne
    exact ⟨v, hv, by rw [intervalIndices_filter T a b now hne hflt, hv]⟩

/-- C15, amended, at the log `start, lap, stop` and the indices 5 and 1. -/
theorem intervalIndices_out_of_range_witness :
    intervalIndices (NanoTimer.mk {} {} false [NanoSplit.mk "start" 10, NanoSplit.mk "lap" 20,
        NanoSplit.mk "stop" 30]) 5 1 50 = some 0 :=
  (intervalIndices_out_of_range (NanoTimer.mk {} {} false [NanoSplit.mk "start" 10,
    NanoSplit.mk "lap" 20, NanoSplit.mk "stop" 30]) 5 1 50 (by decide)
    (Or.inl (by decide))).1 (by decide)

/-- C16: for every timer whose timebase factor is one of the six the class can
set and whose log timestamps do not decrease in log order (and, when running,
whose clock reading is not earlier than the first record), `interval(a, b)`
returns a value `>= 0` for all integers `a` and `b`, in either order. -/
theorem intervalIndices_nonneg (T : NanoTimer) (a b now : Int)
    (hv : T.timebase.Valid)
    (hsorted : T.splits.Chain' (fun x y => x.time ≤ y.time))
    (hnow : T.running = true → ∀ f, T.front = some f → f.time ≤ now) :
    (∃ v, T.intervalIndices a b now = some v ∧ 0 ≤ v) ∧
    (∃ v, T.intervalIndices b a now = some v ∧ 0 ≤ v) := by
  have hpos := factor_pos_of_valid hv
  have main : ∀ a b : Int, ∃ v, T.intervalIndices a b now = some v ∧ 0 ≤ v := by
    intro a b
    by_cases hne : T.numSplits = 0
    · exact ⟨0, by simp [intervalIndices, hne, zero], le_refl 0⟩
    · obtain ⟨f, hf, hf0⟩ := front_of_ne T hne
      obtain ⟨l, hl, hl0⟩ := back_of_ne T hne
      by_cases hflt : (a = 0 ∨ a = -1 ∨ a ≥ T.numSplits) ∧ (b = 0 ∨ b = -1 ∨ b ≥ T.numSplits)
      · refine ⟨_, by rw [intervalIndices_filter T a b now hne hflt,
          interval_of_front_back T now f l hf hl], ?_⟩
        by_cases hrun : T.running = true
        · rw [if_pos hrun]
          exact sub_nonneg.2 (scale_mono T _ _ hpos (hnow hrun f hf))
        · rw [if_neg hrun]
          exact sub_nonneg.2 (scale_mono T _ _ hpos
            (time_le_of_chain T.splits hsorted 0 (T.splits.length - 1) (Nat.zero_le _) f l hf0 hl0))
      · by_cases hin : (if a < 0 then a + T.numSplits else a) > -1 ∧
            (if a < 0 then a + T.numSplits else a) < T.numSplits ∧
            (if b < 0 then b + T.numSplits else b) > -1 ∧
            (if b < 0 then b + T.numSplits else b) < T.numSplits
        · obtain ⟨h1, h2, h3, h4⟩ := hin
          obtain ⟨p, hp⟩ : ∃ p : Nat, (if a < 0 then a + T.numSplits else a) = (p : Int) :=
            ⟨((if a < 0 then a + T.numSplits else a)).toNat, by omega⟩
          obtain ⟨q, hq⟩ : ∃ q : Nat, (if b < 0 then b + T.numSplits else b) = (q : Int) :=
            ⟨((if b < 0 then b + T.numSplits else b)).toNat, by omega⟩
          rw [hp] at h2
          rw [hq] at h4
          have hpl : p < T.splits.length := by unfold numSplits at h2; omega
          have hql : q < T.splits.length := by unfold numSplits at h4; omega
          obtain ⟨sp, hsp⟩ := getElem?_of_lt T.splits (max p q) (max_lt hpl hql)
          obtain ⟨sq, hsq⟩ := getElem?_of_lt T.splits (min p q)
            (lt_of_le_of_lt (min_le_left p q) hpl)
          refine ⟨_, intervalIndices_inner T a b now p q sp sq hflt hp hq hsp hsq, ?_⟩
          exact sub_nonneg.2 (scale_mono T _ _ hpos
            (time_le_of_chain T.splits hsorted (min p q) (max p q)
              (le_trans (min_le_left p q) (le_max_left p q)) sq sp hsq hsp))
        · exact ⟨0, intervalIndices_outside T a b now hflt hin, le_refl 0⟩
  exact ⟨main a b, main b a⟩

/-- C16, at a running timer with the log `start, lap, 3`, the clock reading 50
and the indices 2 and 1, passed in both orders. -/
theorem intervalIndices_nonneg_witness :
    (∃ v, intervalIndices (NanoTimer.mk {} {} true [NanoSplit.mk "start" 10,
        NanoSplit.mk "lap" 20, NanoSplit.mk "3" 30]) 2 1 50 = some v ∧ 0 ≤ v) ∧
    (∃ v, intervalIndices (NanoTimer.mk {} {} true [NanoSplit.mk "start" 10,
        NanoSplit.mk "lap" 20, NanoSplit.mk "3" 30]) 1 2 50 = some v ∧ 0 ≤ v) :=
  intervalIndices_nonneg (NanoTimer.mk {} {} true [NanoSplit.mk "start" 10,
      NanoSplit.mk "lap" 20, NanoSplit.mk "3" 30]) 2 1 50 (Or.inl rfl) (by simp)
    (by
      intro _ f hf
      cases hf
      decide)

/-- C17: on a log that the name `n` does not resolve on (resolver result -1)
and that holds exactly one record named `"start " + n`, at position `i`, and
exactly one record named `"stop " + n`, at position `j`, `interval(n)` returns
what `interval(i, j)` returns, and that value is the stage's duration: the
scaled timestamp of the stop marker minus the scaled timestamp of the start
marker when the start marker comes first in the log (the difference the other
way round when the stop marker comes first). -/
theorem intervalID_stage_pair (T : NanoTimer) (n : String) (i j : Nat) (now : Int)
    (hres : T.indexFromSplitID n = some (-1))
    (hil : i < T.splits.length) (hjl : j < T.splits.length)
    (hi : ∀ (k : Nat) (h : k < T.splits.length), (T.splits[k].name = "start " ++ n ↔ k = i))
    (hj : ∀ (k : Nat) (h : k < T.splits.length), (T.splits[k].name = "stop " ++ n ↔ k = j)) :
    ∃ (a b : NanoSplit), T.splits[i]? = some a ∧ T.splits[j]? = some b ∧
      a.name = "start " ++ n ∧ b.name = "stop " ++ n ∧
      T.intervalID n now = T.intervalIndices i j now ∧
      T.intervalIndices i j now
        = some (if i < j then T.scale b.time - T.scale a.time
            else T.scale a.time - T.scale b.time) ∧
      T.intervalID n now
        = some (if i < j then T.scale b.time - T.scale a.time
            else T.scale a.time - T.scale b.time) := by
  have hne : T.numSplits ≠ 0 := by
    unfold numSplits; omega
  have hij : i ≠ j := by
    intro h
    have h1 := (hi i hil).2 rfl
    have h2 := (hj i hil).2 h
    rw [h1] at h2
    exact start_ne_stop n n h2
  have hloop : T.intervalID n now = T.intervalIndices i j now := by
    have hidx : T.intervalID n now = intervalID.loop T n now T.splits 0 (-1) (-1) := by
      simp [intervalID, hne, hres]
    rw [hidx]
    refine intervalID.loop_pair T n now i j T.splits 0 (-1) (-1) (le_refl 0) ?_ ?_
      (Or.inl ⟨rfl, by omega, by omega⟩) (Or.inl ⟨rfl, by omega, by omega⟩) (by omega)
    · intro k s hk
      obtain ⟨hkl, rfl⟩ := List.getElem?_eq_some.1 hk
      rw [hi k hkl]; omega
    · intro k s hk
      obtain ⟨hkl, rfl⟩ := List.getElem?_eq_some.1 hk
      rw [hj k hkl]; omega
  have hflt : ¬ (((i : Int) = 0 ∨ (i : Int) = -1 ∨ (i : Int) ≥ T.numSplits) ∧
      ((j : Int) = 0 ∨ (j : Int) = -1 ∨ (j : Int) ≥ T.numSplits)) := by
    unfold numSplits; omega
  have ha : T.splits[i]? = some T.splits[i] := List.getElem?_eq_getElem hil
  have hb : T.splits[j]? = some T.splits[j] := List.getElem?_eq_getElem hjl
  have hval : T.intervalIndices i j now
      = some (if i < j then T.scale T.splits[j].time - T.scale T.splits[i].time
          else T.scale T.splits[i].time - T.scale T.splits[j].time) := by
    by_cases hlt : i < j
    · rw [if_pos hlt]
      exact intervalIndices_inner T i j now i j T.splits[j] T.splits[i] hflt
        (by rw [if_neg (by omega)]) (by rw [if_neg (by omega)])
        (by rw [max_eq_right (le_of_lt hlt)]; exact hb)
        (by rw [min_eq_left (le_of_lt hlt)]; exact ha)
    · rw [if_neg hlt]
      exact intervalIndices_inner T i j now i j T.splits[i] T.splits[j] hflt
        (by rw [if_neg (by omega)]) (by rw [if_neg (by omega)])
        (by rw [max_eq_left (by omega)]; exact ha)
        (by rw [min_eq_right (by omega)]; exact hb)
  exact ⟨T.splits[i], T.splits[j], ha, hb, (hi i hil).2 rfl, (hj j hjl).2 rfl, hloop, hval,
    by rw [hloop, hval]⟩

/-- C17, at the log the demo builds for its first two stages, closed by
`stop()`: the stage "fwd post 2" has its start marker at position 2 (stamped
30) and its stop marker at position 3 (stamped 45). -/
theorem intervalID_stage_pair_witness :
    ∃ (a b : NanoSplit),
      (NanoTimer.mk {} {} false [NanoSplit.mk "start fwd post 1" 10,
        NanoSplit.mk "stop fwd post 1" 20, NanoSplit.mk "start fwd post 2" 30,
        NanoSplit.mk "stop fwd post 2" 45, NanoSplit.mk "stop" 50]).splits[2]? = some a ∧
      (NanoTimer.mk {} {} false [NanoSplit.mk "start fwd post 1" 10,
        NanoSplit.mk "stop fwd post 1" 20, NanoSplit.mk "start fwd post 2" 30,
        NanoSplit.mk "stop fwd post 2" 45, NanoSplit.mk "stop" 50]).splits[3]? = some b ∧
      a.name = "start " ++ "fwd post 2" ∧ b.name = "stop " ++ "fwd post 2" ∧
      intervalID (NanoTimer.mk {} {} false [NanoSplit.mk "start fwd post 1" 10,
        NanoSplit.mk "stop fwd post 1" 20, NanoSplit.mk "start fwd post 2" 30,
        NanoSplit.mk "stop fwd post 2" 45, NanoSplit.mk "stop" 50]) "fwd post 2" 60
        = intervalIndices (NanoTimer.mk {} {} false [NanoSplit.mk "start fwd post 1" 10,
        NanoSplit.mk "stop fwd post 1" 20, NanoSplit.mk "start fwd post 2" 30,
        NanoSplit.mk "stop fwd post 2" 45, NanoSplit.mk "stop" 50]) (2 : Nat) (3 : Nat) 60 ∧
      intervalIndices (NanoTimer.mk {} {} false [NanoSplit.mk "start fwd post 1" 10,
        NanoSplit.mk "stop fwd post 1" 20, NanoSplit.mk "start fwd post 2" 30,
        NanoSplit.mk "stop fwd post 2" 45, NanoSplit.mk "stop" 50]) (2 : Nat) (3 : Nat) 60
        = some (if 2 < 3 then scale (NanoTimer.mk {} {} false [NanoSplit.mk "start fwd post 1" 10,
        NanoSplit.mk "stop fwd post 1" 20, NanoSplit.mk "start fwd post 2" 30,
        NanoSplit.mk "stop fwd post 2" 45, NanoSplit.mk "stop" 50]) b.time
              - scale (NanoTimer.mk {} {} false [NanoSplit.mk "start fwd post 1" 10,
        NanoSplit.mk "stop fwd post 1" 20, NanoSplit.mk "start fwd post 2" 30,
        NanoSplit.mk "stop fwd post 2" 45, NanoSplit.mk "stop" 50]) a.time
            else scale (NanoTimer.mk {} {} false [NanoSplit.mk "start fwd post 1" 10,
        NanoSplit.mk "stop fwd post 1" 20, NanoSplit.mk "start fwd post 2" 30,
        NanoSplit.mk "stop fwd post 2" 45, NanoSplit.mk "stop" 50]) a.time
              - scale (NanoTimer.mk {} {} false [NanoSplit.mk "start fwd post 1" 10,
        NanoSplit.mk "stop fwd post 1" 20, NanoSplit.mk "start fwd post 2" 30,
        NanoSplit.mk "stop fwd post 2" 45, NanoSplit.mk "stop" 50]) b.time) ∧
      intervalID (NanoTimer.mk {} {} false [NanoSplit.mk "start fwd post 1" 10,
        NanoSplit.mk "stop fwd post 1" 20, NanoSplit.mk "start fwd post 2" 30,
        NanoSplit.mk "stop fwd post 2" 45, NanoSplit.mk "stop" 50]) "fwd post 2" 60
        = some (if 2 < 3 then scale (NanoTimer.mk {} {} false [NanoSplit.mk "start fwd post 1" 10,
        NanoSplit.mk "stop fwd post 1" 20, NanoSplit.mk "start fwd post 2" 30,
        NanoSplit.mk "stop fwd post 2" 45, NanoSplit.mk "stop" 50]) b.time
              - scale (NanoTimer.mk {} {} false [NanoSplit.mk "start fwd post 1" 10,
        NanoSplit.mk "stop fwd post 1" 20, NanoSplit.mk "start fwd post 2" 30,
        NanoSplit.mk "stop fwd post 2" 45, NanoSplit.mk "stop" 50]) a.time
            else scale (NanoTimer.mk {} {} false [NanoSplit.mk "start fwd post 1" 10,
        NanoSplit.mk "stop fwd post 1" 20, NanoSplit.mk "start fwd post 2" 30,
        NanoSplit.mk "stop fwd post 2" 45, NanoSplit.mk "stop" 50]) a.time
              - scale (NanoTimer.mk {} {} false [NanoSplit.mk "start fwd post 1" 10,
        NanoSplit.mk "stop fwd post 1" 20, NanoSplit.mk "start fwd post 2" 30,
        NanoSplit.mk "stop fwd post 2" 45, NanoSplit.mk "stop" 50]) b.time) :=
  intervalID_stage_pair (NanoTimer.mk {} {} false [NanoSplit.mk "start fwd post 1" 10,
        NanoSplit.mk "stop fwd post 1" 20, NanoSplit.mk "start fwd post 2" 30,
        NanoSplit.mk "stop fwd post 2" 45, NanoSplit.mk "stop" 50]) "fwd post 2" 2 3 60
    (by decide) (by decide) (by decide) (by decide) (by decide)

/-- C20: on every log that the name `n` does not resolve on (resolver result
-1) and that lacks a record named `"start " + n` or lacks a record named
`"stop " + n`, `interval(n)` returns the zero sentinel. -/
theorem intervalID_missing (T : NanoTimer) (n : String) (now : Int)
    (hres : T.indexFromSplitID n = some (-1))
    (hmiss : (∀ s ∈ T.splits, s.name ≠ "start " ++ n) ∨
      (∀ s ∈ T.splits, s.name ≠ "stop " ++ n)) :
    T.intervalID n now = some 0 := by
  by_cases hne : T.numSplits = 0
  · simp [intervalID, hne, zero]
  · have hidx : T.intervalID n now = intervalID.loop T n now T.splits 0 (-1) (-1) := by
      simp [intervalID, hne, hres]
    rw [hidx]
    refine intervalID.loop_missing T n now T.splits 0 (-1) (-1) ?_
    rcases hmiss with h | h
    · exact Or.inl ⟨le_refl _, h⟩
    · exact Or.inr ⟨le_refl _, h⟩

/-- C20, at the name "missing" on the log `start, lap, stop`, which has no
record named "missing", "start missing" or "stop missing". -/
theorem intervalID_missing_witness :
    intervalID (NanoTimer.mk {} {} false [NanoSplit.mk "start" 10, NanoSplit.mk "lap" 20,
      NanoSplit.mk "stop" 30]) "missing" 40 = some 0 :=
  intervalID_missing (NanoTimer.mk {} {} false [NanoSplit.mk "start" 10, NanoSplit.mk "lap" 20,
      NanoSplit.mk "stop" 30]) "missing" 40 (by decide) (Or.inl (by decide))

/-- C18, as stated, fails: after `benchmark(fn, "A")` on a fresh timer the log
holds the markers "start a" and "stop a" and the benchmark returned the
difference of their scaled timestamps, yet `interval("A")` returns 0; and after
`benchmark(fn, "start")` the name "start" resolves to the first record, so
`interval("start")` returns 0 too. -/
theorem intervalID_stage_counterexample :
    benchmarkID {} "A" 10 20 = some (10 / 1000000000,
      NanoTimer.mk {} {} true [NanoSplit.mk "start a" 10, NanoSplit.mk "stop a" 20]) ∧
    intervalID (NanoTimer.mk {} {} true [NanoSplit.mk "start a" 10, NanoSplit.mk "stop a" 20])
      "A" 50 = some 0 ∧
    benchmarkID {} "start" 10 20 = some (10 / 1000000000,
      NanoTimer.mk {} {} true [NanoSplit.mk "start start" 10, NanoSplit.mk "stop start" 20]) ∧
    intervalID (NanoTimer.mk {} {} true [NanoSplit.mk "start start" 10,
      NanoSplit.mk "stop start" 20]) "start" 50 = some 0 ∧
    (10 / 1000000000 : ℚ) ≠ 0 := by
  have hv : scale {} 20 - scale {} 10 = (10 / 1000000000 : ℚ) := by
    simp [scale, Timebase.factor, RCH_NANOTIMER_NANOSECONDS]
    norm_num
  have hm1 : stageMarkers ("A", 10, 20)
      = [NanoSplit.mk "start a" 10, NanoSplit.mk "stop a" 20] := by decide
  have hm2 : stageMarkers ("start", 10, 20)
      = [NanoSplit.mk "start start" 10, NanoSplit.mk "stop start" 20] := by decide
  have b1 := benchmarkID_idle {} ("A", 10, 20) rfl
  have b2 := benchmarkID_idle {} ("start", 10, 20) rfl
  simp only [hv, hm1] at b1
  simp only [hv, hm2] at b2
  refine ⟨b1, ?_, b2, ?_, by norm_num⟩
  · have hr : indexFromSplitID (NanoTimer.mk {} {} true
        [NanoSplit.mk "start a" 10, NanoSplit.mk "stop a" 20]) "A" = some (-1) := by decide
    have hn : numSplits (NanoTimer.mk {} {} true
        [NanoSplit.mk "start a" 10, NanoSplit.mk "stop a" 20]) ≠ 0 := by decide
    have h1 : ¬ (NanoSplit.mk "start a" 10).name = "start " ++ "A" := by decide
    have h2 : ¬ (NanoSplit.mk "stop a" 20).name = "start " ++ "A" := by decide
    have h3 : ¬ (NanoSplit.mk "start a" 10).name = "stop " ++ "A" := by decide
    have h4 : ¬ (NanoSplit.mk "stop a" 20).name = "stop " ++ "A" := by decide
    simp only [intervalID, if_neg hn, hr, Option.bind_eq_bind, Option.some_bind,
      intervalID.loop, if_neg h1, if_neg h2, if_neg h3, if_neg h4]
    simp [zero]
  · have hr : indexFromSplitID (NanoTimer.mk {} {} true
        [NanoSplit.mk "start start" 10, NanoSplit.mk "stop start" 20]) "start" = some 0 := by
      decide
    have hn : numSplits (NanoTimer.mk {} {} true
        [NanoSplit.mk "start start" 10, NanoSplit.mk "stop start" 20]) ≠ 0 := by decide
    simp only [intervalID, if_neg hn, hr, Option.bind_eq_bind, Option.some_bind]
    simp [intervalIndex, zero]

/-- C18, amended: for every stage id `s` without upper case letters that the
name resolver does not resolve on the resulting log, after `benchmark(f, s)` on
an idle timer followed by any further staged benchmarks in the same run, the
log begins with the two markers of `s`, and `interval(s)` returns the scaled
timestamp of the "stop" marker minus that of the "start" marker, the value
`benchmark(f, s)` itself returned. -/
theorem intervalID_stage_first_run (T : NanoTimer) (s : String) (t1 t2 now : Int)
    (more : List (String × Int × Int))
    (hidle : T.running = false) (hlow : tolower s = s)
    (hres : indexFromSplitID
      { T with running := true, splits := stageMarkers (s, t1, t2) ++ stagesLog more } s
        = some (-1)) :
    ∃ (v : ℚ) (T1 T2 : NanoTimer),
      T.benchmarkID s t1 t2 = some (v, T1) ∧ T1.benchmarkIDs more = some T2 ∧
      T2.splits = stageMarkers (s, t1, t2) ++ stagesLog more ∧
      v = T2.scale t2 - T2.scale t1 ∧ T2.intervalID s now = some v := by
  refine ⟨T.scale t2 - T.scale t1,
    { T with running := true, splits := stageMarkers (s, t1, t2) },
    { T with running := true, splits := stageMarkers (s, t1, t2) ++ stagesLog more },
    benchmarkID_idle T (s, t1, t2) hidle, ?_, rfl, rfl, ?_⟩
  · exact benchmarkIDs_running more
      { T with running := true, splits := stageMarkers (s, t1, t2) } rfl
  · exact intervalID_first_stage
      { T with running := true, splits := stageMarkers (s, t1, t2) ++ stagesLog more }
      s t1 t2 now (stagesLog more) hlow rfl hres

/-- C18, amended, at a fresh timer, the stage "a" and a further stage "b". -/
theorem intervalID_stage_first_run_witness :
    ∃ (v : ℚ) (T1 T2 : NanoTimer),
      benchmarkID {} "a" 10 20 = some (v, T1) ∧ T1.benchmarkIDs [("b", 30, 45)] = some T2 ∧
      T2.splits = stageMarkers ("a", 10, 20) ++ stagesLog [("b", 30, 45)] ∧
      v = T2.scale 20 - T2.scale 10 ∧ T2.intervalID "a" 50 = some v :=
  intervalID_stage_first_run {} "a" 10 20 50 [("b", 30, 45)] rfl (by decide) (by decide)

/-- C19, as stated, fails: after `benchmark(f, "a")` and `benchmark(g, "a")` on
a fresh timer, with the clock readings 10, 20, 30 and 50, the log is
`start a, stop a, start a, stop a`, and `interval("a")` is the difference of
the first pair of markers, not `time(3) - time(2)`. -/
theorem intervalID_repeated_stage_counterexample :
    (∃ (v1 v2 : ℚ) (T1 : NanoTimer),
      benchmarkID {} "a" 10 20 = some (v1, T1) ∧
      T1.benchmarkID "a" 30 50 = some (v2, NanoTimer.mk {} {} true
        [NanoSplit.mk "start a" 10, NanoSplit.mk "stop a" 20,
         NanoSplit.mk "start a" 30, NanoSplit.mk "stop a" 50])) ∧
    intervalID (NanoTimer.mk {} {} true [NanoSplit.mk "start a" 10, NanoSplit.mk "stop a" 20,
      NanoSplit.mk "start a" 30, NanoSplit.mk "stop a" 50]) "a" 60 = some (10 / 1000000000) ∧
    time (NanoTimer.mk {} {} true [NanoSplit.mk "start a" 10, NanoSplit.mk "stop a" 20,
      NanoSplit.mk "start a" 30, NanoSplit.mk "stop a" 50]) 3 = some (50 / 1000000000) ∧
    time (NanoTimer.mk {} {} true [NanoSplit.mk "start a" 10, NanoSplit.mk "stop a" 20,
      NanoSplit.mk "start a" 30, NanoSplit.mk "stop a" 50]) 2 = some (30 / 1000000000) ∧
    (10 / 1000000000 : ℚ) ≠ 50 / 1000000000 - 30 / 1000000000 := by
  have hm : stageMarkers ("a", 10, 20)
      = [NanoSplit.mk "start a" 10, NanoSplit.mk "stop a" 20] := by decide
  have hm2 : stageMarkers ("a", 30, 50)
      = [NanoSplit.mk "start a" 30, NanoSplit.mk "stop a" 50] := by decide
  refine ⟨?_, ?_, ?_, ?_, by norm_num⟩
  · have b1 := benchmarkID_idle {} ("a", 10, 20) rfl
    obtain ⟨v2, b2⟩ := benchmarkID_running
      (NanoTimer.mk {} {} true [NanoSplit.mk "start a" 10, NanoSplit.mk "stop a" 20])
      ("a", 30, 50) rfl
    simp only [hm] at b1
    simp only [hm2, List.cons_append, List.nil_append] at b2
    exact ⟨_, v2, _, b1, b2⟩
  · have h := intervalID_first_stage
      (NanoTimer.mk {} {} true [NanoSplit.mk "start a" 10, NanoSplit.mk "stop a" 20,
        NanoSplit.mk "start a" 30, NanoSplit.mk "stop a" 50]) "a" 10 20 60
      [NanoSplit.mk "start a" 30, NanoSplit.mk "stop a" 50] (by decide) (by decide) (by decide)
    rw [h]
    simp [scale, Timebase.factor, RCH_NANOTIMER_NANOSECONDS]
    norm_num
  · simp [numSplits, time, nth, scale, Timebase.factor, RCH_NANOTIMER_NANOSECONDS]
    norm_num
  · simp [numSplits, time, nth, scale, Timebase.factor, RCH_NANOTIMER_NANOSECONDS]
    norm_num

/-- C19, amended: for every stage id `s` without upper case letters that the
name resolver does not resolve on the resulting log, after `benchmark(f, s)`
and `benchmark(g, s)` on an idle timer the log holds the four markers
`start s, stop s, start s, stop s`, and `interval(s)` is computed from the
first pair of markers: it returns `time(1) - time(0)`. -/
theorem intervalID_repeated_stage (T : NanoTimer) (s : String) (t1 t2 t3 t4 now : Int)
    (hidle : T.running = false) (hlow : tolower s = s)
    (hres : indexFromSplitID
      { T with running := true,
               splits := stageMarkers (s, t1, t2) ++ stageMarkers (s, t3, t4) } s
        = some (-1)) :
    ∃ (v1 : ℚ) (T1 : NanoTimer) (v2 : ℚ) (T2 : NanoTimer),
      T.benchmarkID s t1 t2 = some (v1, T1) ∧ T1.benchmarkID s t3 t4 = some (v2, T2) ∧
      T2.splits = stageMarkers (s, t1, t2) ++ stageMarkers (s, t3, t4) ∧
      ∃ a b, T2.time 0 = some a ∧ T2.time 1 = some b ∧ T2.intervalID s now = some (b - a) := by
  obtain ⟨v2, h2⟩ := benchmarkID_running
    { T with running := true, splits := stageMarkers (s, t1, t2) } (s, t3, t4) rfl
  refine ⟨T.scale t2 - T.scale t1,
    { T with running := true, splits := stageMarkers (s, t1, t2) }, v2,
    { T with running := true, splits := stageMarkers (s, t1, t2) ++ stageMarkers (s, t3, t4) },
    benchmarkID_idle T (s, t1, t2) hidle, h2, rfl, T.scale t1, T.scale t2, ?_, ?_, ?_⟩
  · exact time_natIndex
      { T with running := true, splits := stageMarkers (s, t1, t2) ++ stageMarkers (s, t3, t4) }
      0 (NanoSplit.mk (tolower ("start " ++ s)) t1) (by simp [stageMarkers])
  · exact time_natIndex
      { T with running := true, splits := stageMarkers (s, t1, t2) ++ stageMarkers (s, t3, t4) }
      1 (NanoSplit.mk (tolower ("stop " ++ s)) t2) (by simp [stageMarkers])
  · exact intervalID_first_stage
      { T with running := true, splits := stageMarkers (s, t1, t2) ++ stageMarkers (s, t3, t4) }
      s t1 t2 now (stageMarkers (s, t3, t4)) hlow rfl hres

/-- C19, amended, at a fresh timer and the stage "a" run twice. -/
theorem intervalID_repeated_stage_witness :
    ∃ (v1 : ℚ) (T1 : NanoTimer) (v2 : ℚ) (T2 : NanoTimer),
      benchmarkID {} "a" 10 20 = some (v1, T1) ∧ T1.benchmarkID "a" 30 50 = some (v2, T2) ∧
      T2.splits = stageMarkers ("a", 10, 20) ++ stageMarkers ("a", 30, 50) ∧
      ∃ a b, T2.time 0 = some a ∧ T2.time 1 = some b ∧ T2.intervalID "a" 60 = some (b - a) :=
  intervalID_repeated_stage {} "a" 10 20 30 50 60 rfl (by decide) (by decide)

/-- C21: the two-name query at the stopped timer with the log `start, stop`
(reached by `start()`, `stop()`) and the names "start", "start", which the name
resolver both resolves to index 0: `interval("start", "start")` returns 0, not
what the index-pair query `interval(0, 0)` returns, which is `interval()`. -/
theorem intervalIDs_not_delegating :
    (∃ (v1 v2 : ℚ) (T1 : NanoTimer), start {} "" 10 = some (v1, T1) ∧
      T1.stop "" 20 = some (v2, NanoTimer.mk {} {} false
        [NanoSplit.mk "start" 10, NanoSplit.mk "stop" 20])) ∧
    indexFromSplitID (NanoTimer.mk {} {} false
      [NanoSplit.mk "start" 10, NanoSplit.mk "stop" 20]) "start" = some 0 ∧
    intervalIDs (NanoTimer.mk {} {} false
      [NanoSplit.mk "start" 10, NanoSplit.mk "stop" 20]) "start" "start" = some 0 ∧
    intervalIndices (NanoTimer.mk {} {} false
      [NanoSplit.mk "start" 10, NanoSplit.mk "stop" 20]) 0 0 50 = some (10 / 1000000000) := by
  refine ⟨?_, by decide, ?_, ?_⟩
  · have hs : tolower "start" = "start" := by decide
    have hp : tolower "stop" = "stop" := by decide
    refine ⟨scale {} 10, scale {} 20, NanoTimer.mk {} {} true [NanoSplit.mk "start" 10], ?_, ?_⟩
    · simp [start, reset, split, back, front, scale, hs]
    · simp [stop, split, back, scale, hp]
  · have h : indexFromSplitID (NanoTimer.mk {} {} false
        [NanoSplit.mk "start" 10, NanoSplit.mk "stop" 20]) (tolower "start") = some 0 := by
      decide
    have hn : numSplits (NanoTimer.mk {} {} false
        [NanoSplit.mk "start" 10, NanoSplit.mk "stop" 20]) ≠ 0 := by decide
    simp only [intervalIDs, if_neg hn, h, Option.bind_eq_bind, Option.some_bind]
    simp [numSplits, time, front]
  · simp [intervalIndices, interval, numSplits, front, back, scale, Timebase.factor,
      RCH_NANOTIMER_NANOSECONDS]
    norm_num

/-- C22: `interval()` at the stopped timer whose first and last records are
10 nanoseconds apart: under the default nanoseconds timebase it returns
`10 / 10^9`, not 10, and under the seconds timebase it returns `10 / 10^18`,
not `10 / 10^9`. -/
theorem interval_scaled_by_nano :
    interval (NanoTimer.mk {} {} false [NanoSplit.mk "start" 1000, NanoSplit.mk "stop" 1010]) 0
      = some (10 / 1000000000) ∧
    (10 / 1000000000 : ℚ) ≠ 10 ∧
    interval (NanoTimer.mk (Timebase.seconds {}) {} false
      [NanoSplit.mk "start" 1000, NanoSplit.mk "stop" 1010]) 0
      = some (10 / 1000000000000000000) ∧
    (10 / 1000000000000000000 : ℚ) ≠ 10 / 1000000000 := by
  refine ⟨?_, by norm_num, ?_, by norm_num⟩
  · simp [interval, front, back, scale, Timebase.factor, RCH_NANOTIMER_NANOSECONDS]
    norm_num
  · simp [interval, front, back, scale, Timebase.factor, Timebase.seconds,
      RCH_NANOTIMER_SECONDS]
    norm_num

/-- C24: for every value, every timer state and every conversion of numbers
to strings, `format(v)` with the label switched on is `format(v)` with the
label switched off followed by the unit label of the timebase: " ns", " µs",
" ms", " s", " min", " h" for the nanoseconds, microseconds, milliseconds,
seconds, minutes and hours factor. The member is `const`: it returns a string
only and leaves the timer as it is. -/
theorem format_label (to_string : ℚ → String) (T : NanoTimer) (v : ℚ) :
    (T.timebase.factor = RCH_NANOTIMER_NANOSECONDS →
      format to_string { T with formatting := { T.formatting with label := true } } v
        = format to_string { T with formatting := { T.formatting with label := false } } v
          ++ " ns") ∧
    (T.timebase.factor = RCH_NANOTIMER_MICROSECONDS →
      format to_string { T with formatting := { T.formatting with label := true } } v
        = format to_string { T with formatting := { T.formatting with label := false } } v
          ++ " µs") ∧
    (T.timebase.factor = RCH_NANOTIMER_MILLISECONDS →
      format to_string { T with formatting := { T.formatting with label := true } } v
        = format to_string { T with formatting := { T.formatting with label := false } } v
          ++ " ms") ∧
    (T.timebase.factor = RCH_NANOTIMER_SECONDS →
      format to_string { T with formatting := { T.formatting with label := true } } v
        = format to_string { T with formatting := { T.formatting with label := false } } v
          ++ " s") ∧
    (T.timebase.factor = RCH_NANOTIMER_MINUTES →
      format to_string { T with formatting := { T.formatting with label := true } } v
        = format to_string { T with formatting := { T.formatting with label := false } } v
          ++ " min") ∧
    (T.timebase.factor = RCH_NANOTIMER_HOURS →
      format to_string { T with formatting := { T.formatting with label := true } } v
        = format to_string { T with formatting := { T.formatting with label := false } } v
          ++ " h") := by
  refine ⟨?_, ?_, ?_, ?_, ?_, ?_⟩ <;> intro h <;>
    simp only [Timebase.factor] at h <;>
    simp [format, Timebase.factor, h, RCH_NANOTIMER_NANOSECONDS, RCH_NANOTIMER_MICROSECONDS,
      RCH_NANOTIMER_MILLISECONDS, RCH_NANOTIMER_SECONDS, RCH_NANOTIMER_MINUTES,
      RCH_NANOTIMER_HOURS, RCH_NANOTIMER_LABELS_NANOSECONDS, RCH_NANOTIMER_LABELS_MICROSECONDS,
      RCH_NANOTIMER_LABELS_MILLISECONDS, RCH_NANOTIMER_LABELS_SECONDS,
      RCH_NANOTIMER_LABELS_MINUTES, RCH_NANOTIMER_LABELS_HOURS]

/-- C24, at a fresh timer switched to milliseconds and a conversion that
prints every number as "1234.567800". -/
theorem format_label_witness :
    format (fun _ => "1234.567800")
        { (NanoTimer.mk (Timebase.milliseconds {}) {} false []) with
          formatting := { (NanoTimer.mk (Timebase.milliseconds {}) {} false []).formatting with
            label := true } } (12345678 / 10000)
      = format (fun _ => "1234.567800")
        { (NanoTimer.mk (Timebase.milliseconds {}) {} false []) with
          formatting := { (NanoTimer.mk (Timebase.milliseconds {}) {} false []).formatting with
            label := false } } (12345678 / 10000) ++ " ms" :=
  (format_label (fun _ => "1234.567800") (NanoTimer.mk (Timebase.milliseconds {}) {} false [])
    (12345678 / 10000)).2.2.1 rfl

/-- C25: for every prior timer state, the discrete `benchmark(f)` with a
callable that does not touch the timer returns, leaves `running = false` and
the log of exactly the two records "start" and "stop"; the void overload
returns `scale(stop record) - scale(start record)`, which is what `interval()`
returns afterwards, and the value-returning overload returns the value the
callable returned and leaves the same timer state. -/
theorem benchmark_spec (T : NanoTimer) (now1 now2 now3 : Int) :
    ∃ (v : ℚ) (T' : NanoTimer), T.benchmark now1 now2 now3 = some (v, T') ∧
      T'.running = false ∧
      T'.splits = [NanoSplit.mk "start" now1, NanoSplit.mk "stop" now2] ∧
      v = T'.scale now2 - T'.scale now1 ∧
      (∀ now : Int, T'.interval now = some v) ∧
      ∀ (RETURNTYPE : Type) (result : RETURNTYPE),
        T.benchmarkValue result now1 now2 = some (result, T') := by
  have hss := start_stop_eq T now1 now2
  have hint : ∀ now : Int,
      interval { T with running := false,
                        splits := [NanoSplit.mk "start" now1, NanoSplit.mk "stop" now2] } now
        = some (scale T now2 - scale T now1) := by
    intro now
    simp [interval, front, back, scale]
  refine ⟨scale T now2 - scale T now1,
    { T with running := false,
             splits := [NanoSplit.mk "start" now1, NanoSplit.mk "stop" now2] },
    ?_, rfl, rfl, rfl, hint, ?_⟩
  · have h : T.benchmark now1 now2 now3
        = ((T.start "" now1).bind (fun p => p.2.stop "" now2)).bind
            (fun q => (q.2.interval now3).bind (fun r => some (r, q.2))) := by
      simp only [benchmark, Option.bind_eq_bind, Option.bind_assoc]
      rfl
    rw [h, hss]
    simp only [Option.some_bind, hint now3]
  · intro R result
    have h : T.benchmarkValue result now1 now2
        = ((T.start "" now1).bind (fun p => p.2.stop "" now2)).bind
            (fun q => some (result, q.2)) := by
      simp only [benchmarkValue, Option.bind_eq_bind, Option.bind_assoc]
      rfl
    rw [h, hss]
    rfl

/-- C26: for every prior timer state and every stage id `s`, the staged
`benchmark(f, s)` with a callable that does not touch the timer returns and
leaves `running = true`; if the timer was running with log `L` the log is `L`
followed by the two records named by the lower case forms of `"start " + s`
and `"stop " + s`, and if it was not running the log is exactly these two
records. The value-returning overload returns the value of the callable and
leaves the same state. -/
theorem benchmarkID_log (T : NanoTimer) (s : String) (now1 now2 : Int) :
    ∃ (v : ℚ) (T' : NanoTimer), T.benchmarkID s now1 now2 = some (v, T') ∧
      T'.running = true ∧
      (T.running = true → T'.splits = T.splits ++
        [NanoSplit.mk (tolower ("start " ++ s)) now1, NanoSplit.mk (tolower ("stop " ++ s)) now2]) ∧
      (T.running = false → T'.splits =
        [NanoSplit.mk (tolower ("start " ++ s)) now1, NanoSplit.mk (tolower ("stop " ++ s)) now2]) ∧
      ∀ (RETURNTYPE : Type) (result : RETURNTYPE),
        T.benchmarkIDValue result s now1 now2 = some (result, T') := by
  refine ⟨_, _, benchmarkID_eq T (s, now1, now2), rfl, ?_, ?_, ?_⟩
  · intro hrun
    simp [hrun, stageMarkers]
  · intro hrun
    simp [hrun, stageMarkers]
  · intro R result
    exact benchmarkIDValue_eq T result (s, now1, now2)

/-- C27: for every prior timer state and every stage id `s` (of any letter
case, used before in the log or not), the void staged `benchmark(f, s)` with a
callable that does not touch the timer returns the scaled timestamp of the
"stop" marker it appended minus that of the "start" marker it appended, which
is `time(-1) - time(-2)` on the resulting log. -/
theorem benchmarkID_value (T : NanoTimer) (s : String) (now1 now2 : Int) :
    ∃ (v : ℚ) (T' : NanoTimer) (tStop tStart : ℚ),
      T.benchmarkID s now1 now2 = some (v, T') ∧
      T'.time (-1) = some tStop ∧ T'.time (-2) = some tStart ∧
      tStop = T'.scale now2 ∧ tStart = T'.scale now1 ∧ v = tStop - tStart := by
  refine ⟨_, _, _, _, benchmarkID_eq T (s, now1, now2), ?_, ?_, rfl, rfl, rfl⟩
  · exact time_neg_one _
      ((if T.running = true then T.splits else []) ++ [NanoSplit.mk (tolower ("start " ++ s)) now1])
      (NanoSplit.mk (tolower ("stop " ++ s)) now2) (by simp [stageMarkers])
  · exact time_neg_two _ (if T.running = true then T.splits else [])
      (NanoSplit.mk (tolower ("start " ++ s)) now1) (NanoSplit.mk (tolower ("stop " ++ s)) now2)
      (by simp [stageMarkers])

/-- C28: for every log with `count` records, `listIds()` returns exactly the
`count` record names in log order and `listTimes()` returns exactly `count`
values, the value at every position `i < count` being what `time(i)` returns;
both return the empty sequence for an empty log. Both members are `const`:
they return data only and leave the timer as it is. -/
theorem list_exports (T : NanoTimer) :
    T.listIds = T.splits.map NanoSplit.name ∧
    T.listIds.length = T.splits.length ∧
    T.listTimes.length = T.splits.length ∧
    (∀ i : Nat, i < T.splits.length →
      ∃ v, T.listTimes[i]? = some v ∧ T.time (i : Int) = some v) ∧
    (T.splits = [] → T.listIds = [] ∧ T.listTimes = []) := by
  have hIds : T.listIds = T.splits.map NanoSplit.name := by
    simp [listIds, listIds_loop_eq]
  have hTimes : T.listTimes = T.splits.map (fun s => T.scale s.time) := by
    simp [listTimes, listTimes_loop_eq]
  refine ⟨hIds, by rw [hIds, List.length_map], by rw [hTimes, List.length_map], ?_, ?_⟩
  · intro i hi
    obtain ⟨s, hs⟩ := getElem?_of_lt T.splits i hi
    refine ⟨T.scale s.time, ?_, time_natIndex T i s hs⟩
    rw [hTimes, List.getElem?_map, hs]
    rfl
  · intro h
    rw [hIds, hTimes, h]
    exact ⟨rfl, rfl⟩

/-- C28, at the log `start, lap, stop` and the position 1. -/
theorem list_exports_witness :
    ∃ v, (listTimes (NanoTimer.mk {} {} false [NanoSplit.mk "start" 10, NanoSplit.mk "lap" 20,
        NanoSplit.mk "stop" 30]))[1]? = some v ∧
      time (NanoTimer.mk {} {} false [NanoSplit.mk "start" 10, NanoSplit.mk "lap" 20,
        NanoSplit.mk "stop" 30]) ((1 : Nat) : Int) = some v :=
  (list_exports (NanoTimer.mk {} {} false [NanoSplit.mk "start" 10, NanoSplit.mk "lap" 20,
        NanoSplit.mk "stop" 30])).2.2.2.1 1 (by decide)

/-- C29: `list(IDs, Timestamps)` at the log `start, stop` and two empty vectors
of the caller: the caller's `IDs` ends up with four entries, two empty strings
followed by the two names, and the caller's `Timestamps` stays empty. In
general `IDs` holds `count` entries of its resized old content followed by the
`count` names, and `Timestamps` is what it was before the call; with an empty
log a non-empty `Timestamps` of the caller stays non-empty. -/
theorem list_caller_vectors :
    list (NanoTimer.mk {} {} false [NanoSplit.mk "start" 10, NanoSplit.mk "stop" 20]) [] []
      = (["", "", "start", "stop"], []) ∧
    (∀ (T : NanoTimer) (IDs : List String) (Timestamps : List ℚ),
      T.list IDs Timestamps
        = (resize IDs T.splits.length ++ T.splits.map NanoSplit.name, Timestamps)) ∧
    list {} ["x"] [5] = ([], [5]) := by
  have gen : ∀ (T : NanoTimer) (IDs : List String) (Timestamps : List ℚ),
      T.list IDs Timestamps
        = (resize IDs T.splits.length ++ T.splits.map NanoSplit.name, Timestamps) := by
    intro T IDs Timestamps
    simp [list, list_loop_eq, numSplits]
  refine ⟨?_, gen, ?_⟩
  · rw [gen]
    decide
  · rw [gen]
    decide

/-- C30: every sequence of `start`, `split`, `stop`, `reset` and benchmark
calls (discrete or staged, void or value-returning, with callables that do not
touch the timer) with arbitrary names, made on a freshly constructed timer,
returns, and in the state it reaches every record's name equals its own lower
case form and holds no upper case ASCII letter. -/
theorem names_normalised (Precision : Nat) (DisplayLabel : Bool) (calls : List Call) :
    (∃ T, runCalls {} calls = some T ∧
      ∀ s ∈ T.splits, tolower s.name = s.name ∧
        ∀ c ∈ s.name.data, ¬ (65 ≤ c.toNat ∧ c.toNat ≤ 90)) ∧
    (∃ T, runCalls (create Precision DisplayLabel) calls = some T ∧
      ∀ s ∈ T.splits, tolower s.name = s.name ∧
        ∀ c ∈ s.name.data, ¬ (65 ≤ c.toNat ∧ c.toNat ≤ 90)) := by
  have main : ∀ T0 : NanoTimer, T0.splits = [] →
      ∃ T, runCalls T0 calls = some T ∧
        ∀ s ∈ T.splits, tolower s.name = s.name ∧
          ∀ c ∈ s.name.data, ¬ (65 ≤ c.toNat ∧ c.toNat ≤ 90) := by
    intro T0 h0
    have hN0 : T0.Normalised := by
      intro s hs
      rw [h0] at hs
      cases hs
    obtain ⟨T, hT, hN⟩ := runCalls_normalised calls T0 hN0
    exact ⟨T, hT, fun s hs => ⟨hN s hs, no_upper_of_tolower_eq s.name (hN s hs)⟩⟩
  exact ⟨main {} rfl, main (create Precision DisplayLabel) rfl⟩

/-- C33: for every timer state, every clock reading and all integers `a` and
`b`, the index-pair query is symmetric: `interval(a, b)` and `interval(b, a)`
return the same. -/
theorem intervalIndices_symm (T : NanoTimer) (a b now : Int) :
    T.intervalIndices a b now = T.intervalIndices b a now := by
  by_cases hne : T.numSplits = 0
  · simp [intervalIndices, hne]
  · by_cases hflt : (a = 0 ∨ a = -1 ∨ a ≥ T.numSplits) ∧ (b = 0 ∨ b = -1 ∨ b ≥ T.numSplits)
    · rw [intervalIndices_filter T a b now hne hflt,
        intervalIndices_filter T b a now hne ⟨hflt.2, hflt.1⟩]
    · have hflt' : ¬ ((b = 0 ∨ b = -1 ∨ b ≥ T.numSplits) ∧ (a = 0 ∨ a = -1 ∨ a ≥ T.numSplits)) :=
        fun h => hflt ⟨h.2, h.1⟩
      by_cases hin : (if a < 0 then a + T.numSplits else a) > -1 ∧
          (if a < 0 then a + T.numSplits else a) < T.numSplits ∧
          (if b < 0 then b + T.numSplits else b) > -1 ∧
          (if b < 0 then b + T.numSplits else b) < T.numSplits
      · have hin' : (if b < 0 then b + T.numSplits else b) > -1 ∧
            (if b < 0 then b + T.numSplits else b) < T.numSplits ∧
            (if a < 0 then a + T.numSplits else a) > -1 ∧
            (if a < 0 then a + T.numSplits else a) < T.numSplits :=
          ⟨hin.2.2.1, hin.2.2.2, hin.1, hin.2.1⟩
        simp only [intervalIndices, if_neg hne, if_neg hflt, if_neg hflt', normalise_index,
          if_pos hin, if_pos hin']
        rw [max_comm, min_comm]
      · have hin' : ¬ ((if b < 0 then b + T.numSplits else b) > -1 ∧
            (if b < 0 then b + T.numSplits else b) < T.numSplits ∧
            (if a < 0 then a + T.numSplits else a) > -1 ∧
            (if a < 0 then a + T.numSplits else a) < T.numSplits) :=
          fun h => hin ⟨h.2.2.1, h.2.2.2, h.1, h.2.1⟩
        rw [intervalIndices_outside T a b now hflt hin,
          intervalIndices_outside T b a now hflt' hin']

/-- C35: on a running timer whose log holds `k` records, `split()` without a
name returns and appends one record, stamped with the clock reading of the
call, whose name is the decimal string of `k + 1`. -/
theorem split_unnamed (T : NanoTimer) (now : Int) (hrun : T.running = true) :
    ∃ (v : ℚ) (T' : NanoTimer), T.split "" now = some (v, T') ∧
      T'.splits = T.splits ++ [NanoSplit.mk (Nat.repr (T.splits.length + 1)) now] := by
  refine ⟨_, _, split_running T "" now hrun, ?_⟩
  have he : tolower "" = "" := by decide
  simp only [he, if_true, numSplits, toString_int_succ]

/-- C35, at the timer right after `start()`: the first unnamed split is named "2". -/
theorem split_unnamed_witness :
    (∃ v, start {} "" 10 = some (v, NanoTimer.mk {} {} true [NanoSplit.mk "start" 10])) ∧
    Nat.repr ((NanoTimer.mk {} {} true [NanoSplit.mk "start" 10]).splits.length + 1) = "2" ∧
    ∃ (v : ℚ) (T' : NanoTimer),
      split (NanoTimer.mk {} {} true [NanoSplit.mk "start" 10]) "" 20 = some (v, T') ∧
      T'.splits = (NanoTimer.mk {} {} true [NanoSplit.mk "start" 10]).splits ++
        [NanoSplit.mk (Nat.repr ((NanoTimer.mk {} {} true
          [NanoSplit.mk "start" 10]).splits.length + 1)) 20] :=
  ⟨⟨_, start_eq {} "" 10⟩, by decide,
    split_unnamed (NanoTimer.mk {} {} true [NanoSplit.mk "start" 10]) 20 rfl⟩

/-- C31: every sequence of `start`, `split`, `stop`, `reset` and benchmark
calls (callables not touching the timer) made on a freshly constructed timer
returns, and in the state it reaches: if `running = true` the log has at least
one record; if `running = false` the log is empty or has at least two records;
and `interval()` returns a value, its reads of the first and the last record
being defined, exactly when the log is not empty. -/
theorem log_shape_reachable (Precision : Nat) (DisplayLabel : Bool) (calls : List Call) :
    (∃ T, runCalls {} calls = some T ∧
      (T.running = true → 1 ≤ T.splits.length) ∧
      (T.running = false → T.splits = [] ∨ 2 ≤ T.splits.length) ∧
      ∀ now : Int, (∃ v, T.interval now = some v) ↔ T.splits ≠ []) ∧
    (∃ T, runCalls (create Precision DisplayLabel) calls = some T ∧
      (T.running = true → 1 ≤ T.splits.length) ∧
      (T.running = false → T.splits = [] ∨ 2 ≤ T.splits.length) ∧
      ∀ now : Int, (∃ v, T.interval now = some v) ↔ T.splits ≠ []) := by
  have main : ∀ T0 : NanoTimer, T0.running = false → T0.splits = [] →
      ∃ T, runCalls T0 calls = some T ∧
        (T.running = true → 1 ≤ T.splits.length) ∧
        (T.running = false → T.splits = [] ∨ 2 ≤ T.splits.length) ∧
        ∀ now : Int, (∃ v, T.interval now = some v) ↔ T.splits ≠ [] := by
    intro T0 hr h0
    have hS0 : T0.LogShape := by
      unfold LogShape
      exact ⟨fun h => (by rw [hr] at h; cases h), fun _ => Or.inl h0⟩
    obtain ⟨T, hT, hS⟩ := runCalls_shape calls T0 hS0
    unfold LogShape at hS
    exact ⟨T, hT, hS.1, hS.2, fun now => interval_defined_iff T now⟩
  exact ⟨main {} rfl rfl, main (create Precision DisplayLabel) rfl rfl⟩

/-- C32: for every log and every name, the name resolver `indexFromSplitID`
returns what the reference definition gives: `-1` for an empty log; otherwise,
with `m` the lower case form of the name, the greatest position of a record
named `m` if there is one (also when `m` is "start", "begin", "stop" or "end");
otherwise 0 for "start" and "begin", `count - 1` for "stop" and "end", and `-1`
for any other name. The result lies in `[-1, count)` and is the same for two
names with the same lower case form. The greatest position of the reference
definition is that of a record named `m` after which no record is named `m`,
and there is none only when no record is named `m`. -/
theorem indexFromSplitID_refines (T : NanoTimer) (n : String) :
    T.indexFromSplitID n = some (T.indexFromSplitID_reference n) ∧
    -1 ≤ T.indexFromSplitID_reference n ∧
    T.indexFromSplitID_reference n < T.numSplits ∧
    (∀ n' : String, tolower n' = tolower n → T.indexFromSplitID n' = T.indexFromSplitID n) ∧
    (∀ k : Nat, lastIndexNamed (tolower n) T.splits = some k →
      (∃ s, T.splits[k]? = some s ∧ s.name = tolower n) ∧
      ∀ (j : Nat) (s : NanoSplit), k < j → T.splits[j]? = some s → s.name ≠ tolower n) ∧
    (lastIndexNamed (tolower n) T.splits = none → ∀ s ∈ T.splits, s.name ≠ tolower n) := by
  have hsome := lastIndexNamed_some (tolower n) T.splits
  have hnone := lastIndexNamed_none (tolower n) T.splits
  have heq : T.indexFromSplitID n = some (T.indexFromSplitID_reference n) := by
    by_cases hne : T.numSplits = 0
    · have hl : T.splits.length = 0 := by
        unfold numSplits at hne; omega
      simp [indexFromSplitID, hne, indexFromSplitID_reference, hl]
    · have hl : ¬ T.splits.length = 0 := by
        unfold numSplits at hne; omega
      obtain ⟨f, hf, hf0⟩ := front_of_ne T hne
      obtain ⟨b, hb, hb0⟩ := back_of_ne T hne
      simp only [indexFromSplitID, if_neg hne, hf, hb, Option.bind_eq_bind, Option.some_bind,
        indexFromSplitID_reference, if_neg hl, indexFromSplitID.loop_lastIndexNamed]
      cases hlast : lastIndexNamed (tolower n) T.splits with
      | some i =>
        simp only [zero_add]
        rfl
      | none =>
        have hfn : tolower n ≠ f.name :=
          fun h => hnone hlast f (List.getElem?_mem hf0) h.symm
        have hbn : tolower n ≠ b.name :=
          fun h => hnone hlast b (List.getElem?_mem hb0) h.symm
        simp only [hfn, hbn, or_false, numSplits]
        rfl
  have hbounds : -1 ≤ T.indexFromSplitID_reference n ∧
      T.indexFromSplitID_reference n < T.numSplits := by
    unfold indexFromSplitID_reference numSplits
    by_cases hl : T.splits.length = 0
    · simp [hl]
    · rw [if_neg hl]
      cases hlast : lastIndexNamed (tolower n) T.splits with
      | some i =>
        obtain ⟨⟨s, hs, _⟩, _⟩ := hsome i hlast
        obtain ⟨hi, _⟩ := List.getElem?_eq_some.1 hs
        simp only
        constructor <;> omega
      | none =>
        simp only
        split_ifs <;> constructor <;> omega
  refine ⟨heq, hbounds.1, hbounds.2, ?_, hsome, hnone⟩
  intro n' hn'
  simp only [indexFromSplitID, hn']

/-- C32, at the log `start, lap, start, stop` and the name "START": the
resolver and the reference definition both give the position 2 of the later
record named "start". -/
theorem indexFromSplitID_refines_witness :
    indexFromSplitID (NanoTimer.mk {} {} false [NanoSplit.mk "start" 10, NanoSplit.mk "lap" 20,
      NanoSplit.mk "start" 30, NanoSplit.mk "stop" 40]) "START" = some 2 ∧
    indexFromSplitID_reference (NanoTimer.mk {} {} false [NanoSplit.mk "start" 10,
      NanoSplit.mk "lap" 20, NanoSplit.mk "start" 30, NanoSplit.mk "stop" 40]) "START" = 2 ∧
    indexFromSplitID (NanoTimer.mk {} {} false [NanoSplit.mk "start" 10, NanoSplit.mk "lap" 20,
      NanoSplit.mk "start" 30, NanoSplit.mk "stop" 40]) "START"
      = some (indexFromSplitID_reference (NanoTimer.mk {} {} false [NanoSplit.mk "start" 10,
          NanoSplit.mk "lap" 20, NanoSplit.mk "start" 30, NanoSplit.mk "stop" 40]) "START") :=
  ⟨by decide, by decide,
    (indexFromSplitID_refines (NanoTimer.mk {} {} false [NanoSplit.mk "start" 10,
      NanoSplit.mk "lap" 20, NanoSplit.mk "start" 30, NanoSplit.mk "stop" 40]) "START").1⟩

end NanoTimer

end RCH

